import Mathlib

/-!
Verification of the MathLive formula editor's template-tree store, windowed
list renderer, persistence adapter and import/export pipeline, shallowly
embedded from `src/main.ts` and the virtual-list module.

Conventions of the embedding:
* TypeScript strings are Lean `String`s; `undefined`/absent optional fields
  are `Option.none`.
* `generateId` (random UUIDs in the source) is modelled as a deterministic
  fresh-name supply `generateId pre n` driven by a counter threaded through
  the state, since the source only relies on freshness of the ids.
* The `Map`-typed descendant cache is an association list; `Map.get` is
  first-match lookup, `Map.set` prepends, `Map.clear` is `[]`.
* Recursions that the source runs on acyclic data are given explicit fuel so
  that every definition is total and kernel-computable; call sites use a fuel
  bound that is never exhausted on the acyclic inputs the source works with.
-/

namespace FormulaEditor

/-- Model of JS `String.prototype.trim()` (Lean's own `String.trim` is not
kernel-computable, so we give a list-based equivalent). -/
def jsTrim (s : String) : String :=
  ⟨((s.data.dropWhile Char.isWhitespace).reverse.dropWhile Char.isWhitespace).reverse⟩

/-- Model of JS `String.prototype.toLowerCase()` (ASCII case folding). -/
def jsToLower (s : String) : String := ⟨s.data.map Char.toLower⟩

/-- Whether `needle` starts the list `hay`. -/
def chStartsWith : List Char → List Char → Bool
  | [], _ => true
  | _ :: _, [] => false
  | a :: as, b :: bs => a == b && chStartsWith as bs

/-- Whether `needle` occurs contiguously in `hay`. -/
def chContainsSub : List Char → List Char → Bool
  | hay, needle =>
    chStartsWith needle hay ||
      match hay with
      | [] => false
      | _ :: t => chContainsSub t needle

/-- Model of JS `hay.includes(needle)`. -/
def containsSubstr (hay needle : String) : Bool := chContainsSub hay.data needle.data

/-- A saved template: `{id, name, latex, note?}` (absent note is `''`). -/
structure TemplateItem where
  id : String
  name : String
  latex : String
  note : String
  deriving Repr, DecidableEq

/-- A category node of the template forest: flat record with parent link. -/
structure TemplateCategory where
  id : String
  name : String
  templates : List TemplateItem
  parentId : Option String
  deriving Repr, DecidableEq

/-- The template library part of the mutable app state. -/
structure TemplateLibrary where
  categories : List TemplateCategory
  selectedCategoryId : String
  deriving Repr, DecidableEq

/-- The distinguished pseudo-category (`const ALL_CATEGORY_ID = '__all__'`). -/
def ALL_CATEGORY_ID : String := "__all__"

/-- Deterministic model of `generateId(prefix)`: the source returns a fresh
random id; we thread a counter `n` and return `pre ++ "-" ++ n`. -/
def generateId (pre : String) (n : Nat) : String := pre ++ "-" ++ toString n

/-- Source `categories.find(cat => cat.id === cid)`. -/
def findCat (cats : List TemplateCategory) (cid : String) : Option TemplateCategory :=
  cats.find? (fun c => c.id == cid)

/-- JS `x || ''` applied to an optional string. -/
def optKey : Option String → String
  | none => ""
  | some s => s

/-- Source `getTemplateChildren`: categories whose `(parentId || '')` equals
`(pid || '')`. -/
def getTemplateChildren (cats : List TemplateCategory) (pid : Option String) :
    List TemplateCategory :=
  cats.filter (fun c => optKey c.parentId == optKey pid)

/-- Loop body of `getTemplateCategoryDepth`: walk parent links, breaking once
the depth counter passes 6.  The loop runs at most 6 iterations thanks to the
break, so fuel 7 at the call site is never exhausted. -/
def depthGo (cats : List TemplateCategory) : Nat → Option TemplateCategory → Nat → Nat
  | 0, _, depth => depth
  | _ + 1, none, depth => depth
  | fuel + 1, some c, depth =>
    match c.parentId with
    | none => depth
    | some pid =>
      if depth + 1 > 6 then depth + 1
      else depthGo cats fuel (findCat cats pid) (depth + 1)

/-- Source `getTemplateCategoryDepth(categoryId?)`. -/
def getTemplateCategoryDepth (cats : List TemplateCategory) : Option String → Nat
  | none => 0
  | some cid => depthGo cats 7 (findCat cats cid) 1

/-- The memoized descendant-id cache (`Map<string, string[]>`). -/
abbrev DescCache := List (String × List String)

/-- Source `descendantCategoryIdsCache.get(k)` (first matching entry). -/
def cacheLookup (cache : DescCache) (k : String) : Option (List String) :=
  (cache.find? (fun p => p.1 == k)).map (fun p => p.2)

/-- Source `getDescendantCategoryIds`, with the cache threaded explicitly.  Fuel
decreases once per tree level, mirroring the source recursion (which the
source only runs on acyclic forests); call sites pass `cats.length`, enough
for any forest with distinct ids. -/
def descGo (cats : List TemplateCategory) : Nat → DescCache → String → List String × DescCache
  | fuel, cache, categoryId =>
    match cacheLookup cache categoryId with
    | some v => (v, cache)
    | none =>
      match fuel with
      | 0 => ([categoryId], cache)
      | Nat.succ f =>
        let st := (getTemplateChildren cats (some categoryId)).foldl
          (fun st child =>
            let r := descGo cats f st.2 child.id
            (st.1 ++ r.1, r.2))
          (([] : List String), cache)
        (categoryId :: st.1, (categoryId, categoryId :: st.1) :: st.2)

/-- The part of the app state the template-tree claims range over: the
library, the descendant cache, and the fresh-id counter. -/
structure StoreState where
  library : TemplateLibrary
  cache : DescCache
  nextGenId : Nat
  deriving Repr, DecidableEq

/-- Initial app state: no categories, `selectedCategoryId: ''`, empty cache. -/
def initialStoreState : StoreState :=
  { library := { categories := [], selectedCategoryId := "" }, cache := [], nextGenId := 0 }

/-- Source `getDescendantCategoryIds(cid)` as the app calls it (value part). -/
def getDescendantCategoryIds (s : StoreState) (cid : String) : List String :=
  (descGo s.library.categories s.library.categories.length s.cache cid).1

/-- Source `getCategoryTemplateCount(categoryId)`. -/
def getCategoryTemplateCount (s : StoreState) (categoryId : String) : Nat :=
  let ids := getDescendantCategoryIds s categoryId
  s.library.categories.foldl
    (fun total c => if ids.contains c.id then total + c.templates.length else total) 0

/-- Source `handleCreateTemplateCategory`, with the `prompt`/`confirm` dialog results
as parameters (`rawName` is the prompt result, `""` doubling for cancel, and
`confirmDup` the duplicate-name confirmation).  Note that the source does NOT
clear the descendant cache here. -/
def handleCreateTemplateCategory (s : StoreState) (rawName : String) (confirmDup : Bool) :
    StoreState :=
  let trimmed := jsTrim rawName
  if trimmed == "" then s
  else
    let cats := s.library.categories
    let dup := cats.any (fun c => c.name == trimmed)
    if dup && !confirmDup then s
    else
      let sel := s.library.selectedCategoryId
      let parentId := if sel != "" && sel != ALL_CATEGORY_ID then some sel else none
      let parentDepth := getTemplateCategoryDepth cats parentId
      if parentDepth ≥ 6 then s
      else
        let newId := generateId "category" s.nextGenId
        let newCat : TemplateCategory :=
          { id := newId, name := trimmed, templates := [], parentId := parentId }
        { library :=
            { categories := cats ++ [newCat],
              selectedCategoryId := if newId == "" then ALL_CATEGORY_ID else newId },
          cache := s.cache,
          nextGenId := s.nextGenId + 1 }

/-- Source `removeTemplateCategory(categoryId)` with the `confirm` result as a
parameter.  The descendant set is read through the cache, then the cache is
cleared. -/
def removeTemplateCategory (s : StoreState) (categoryId : String) (confirmDelete : Bool) :
    StoreState :=
  if categoryId == ALL_CATEGORY_ID then s
  else
    match findCat s.library.categories categoryId with
    | none => s
    | some _ =>
      if !confirmDelete then s
      else
        let idsToRemove :=
          (descGo s.library.categories s.library.categories.length s.cache categoryId).1
        let cats2 := s.library.categories.filter (fun c => !(idsToRemove.contains c.id))
        let sel := s.library.selectedCategoryId
        { library :=
            { categories := cats2,
              selectedCategoryId := if idsToRemove.contains sel then ALL_CATEGORY_ID else sel },
          cache := [],
          nextGenId := s.nextGenId }

/-- Replace the first category with the given id (the source mutates the
object returned by `find`, i.e. the first match). -/
def updateFirstCat (cats : List TemplateCategory) (cid : String)
    (f : TemplateCategory → TemplateCategory) : List TemplateCategory :=
  match cats with
  | [] => []
  | c :: rest => if c.id == cid then f c :: rest else c :: updateFirstCat rest cid f

/-- Source `removeTemplateEntry(categoryId, templateId)` with the `confirm` result as
a parameter; clears the descendant cache. -/
def removeTemplateEntry (s : StoreState) (categoryId templateId : String)
    (confirmDelete : Bool) : StoreState :=
  match findCat s.library.categories categoryId with
  | none => s
  | some category =>
    match category.templates.find? (fun t => t.id == templateId) with
    | none => s
    | some _ =>
      if !confirmDelete then s
      else
        { s with
          library :=
            { s.library with
              categories := updateFirstCat s.library.categories categoryId
                (fun c =>
                  { c with templates := c.templates.filter (fun t => !(t.id == templateId)) }) },
          cache := [] }

/-- The structural mutations and cache-populating reads of the store. -/
inductive StoreOp where
  | create (name : String) (confirmDup : Bool)
  | deleteCat (categoryId : String) (confirmDelete : Bool)
  | removeTpl (categoryId templateId : String) (confirmDelete : Bool)
  | readDesc (categoryId : String)
  deriving Repr, DecidableEq

/-- One store operation.  `readDesc` is a `getDescendantCategoryIds` call (the
renderer performs such reads after every mutation); it updates the cache. -/
def applyOp (s : StoreState) : StoreOp → StoreState
  | .create n c => handleCreateTemplateCategory s n c
  | .deleteCat cid c => removeTemplateCategory s cid c
  | .removeTpl cid tid c => removeTemplateEntry s cid tid c
  | .readDesc cid =>
    let r := descGo s.library.categories s.library.categories.length s.cache cid
    { s with cache := r.2 }

/-- Run a sequence of store operations. -/
def runOps (s : StoreState) (ops : List StoreOp) : StoreState :=
  ops.foldl applyOp s

/-- Modelled from the spec: `d` lies in the subtree rooted at `root`, i.e.
`d = root` or the chain of parent links from `d` reaches `root`.  This is the
specification-side notion of "transitive descendant" the claims compare the
code against; fuel bounds the walk, `cats.length` sufficing on any forest
with distinct ids. -/
def isInSubtree (cats : List TemplateCategory) : Nat → String → String → Bool
  | 0, root, d => d == root
  | Nat.succ f, root, d =>
    d == root ||
      match findCat cats d with
      | none => false
      | some c =>
        match c.parentId with
        | none => false
        | some p => isInSubtree cats f root p

/-- Modelled from the spec: sum of `templates.length` over exactly the
subtree rooted at `categoryId`. -/
def specSubtreeTemplateSum (cats : List TemplateCategory) (categoryId : String) : Nat :=
  ((cats.filter (fun c => isInSubtree cats cats.length categoryId c.id)).map
    (fun c => c.templates.length)).sum

/-- The parent of `c` (if any) has strictly smaller rank. -/
def parentRankOk (rank : String → Nat) (c : TemplateCategory) : Bool :=
  match c.parentId with
  | none => true
  | some p => decide (rank p < rank c.id)

/-- The category list is a well-formed forest, witnessed by a rank function
that strictly increases along parent→child edges: ids are distinct and
nonempty, no parent link is the empty string, and parents have smaller rank.
All states the app builds satisfy this (creation checks guarantee it). -/
def WellFormedForest (cats : List TemplateCategory) (rank : String → Nat) : Prop :=
  (cats.map (fun c => c.id)).Nodup
    ∧ (∀ c ∈ cats, c.id ≠ "")
    ∧ (∀ c ∈ cats, c.parentId ≠ some "")
    ∧ (∀ c ∈ cats, parentRankOk rank c = true)

/-- Every cache entry is exact: it holds precisely the subtree of its key. -/
def ExactCache (cats : List TemplateCategory) (cache : DescCache) : Prop :=
  ∀ e ∈ cache, ∀ d, d ∈ e.2 ↔ isInSubtree cats cats.length e.1 d = true

/-- Number of categories of rank at least `rank cid` (a fuel bound for
`descGo`). -/
def countGE (cats : List TemplateCategory) (rank : String → Nat) (cid : String) : Nat :=
  (cats.filter (fun c => decide (rank cid ≤ rank c.id))).length

/-- Number of categories of rank at most `rank d` (a fuel bound for
`isInSubtree`). -/
def countLE (cats : List TemplateCategory) (rank : String → Nat) (d : String) : Nat :=
  (cats.filter (fun c => decide (rank c.id ≤ rank d))).length

/-- Creating-and-reading operations only (`handleCreateTemplateCategory`
calls interleaved with `getDescendantCategoryIds` reads). -/
inductive GrowOp where
  | create (name : String) (confirmDup : Bool)
  | readDesc (categoryId : String)
  deriving Repr, DecidableEq

/-- Interpret a `GrowOp` as a store operation. -/
def GrowOp.toStoreOp : GrowOp → StoreOp
  | .create n c => StoreOp.create n c
  | .readDesc cid => StoreOp.readDesc cid

/-- An item handed to the virtual list; the windowing logic only inspects its
`id` (the payload is opaque to it). -/
structure VItem where
  id : String
  deriving Repr, DecidableEq

/-- Source `Math.ceil(a / b)` on naturals. -/
def ceilDiv (a b : Nat) : Nat := (a + b - 1) / b

/-- Source `VirtualList.updateVisibleRange`: from the scroll offset, viewport
height, fixed item height and buffer size, compute the half-open visible
index range `(visibleStart, visibleEnd)`. -/
def updateVisibleRange (itemCount scrollTop viewportHeight itemHeight bufferSize : Nat) :
    Nat × Nat :=
  let start := scrollTop / itemHeight
  let visibleCount := ceilDiv viewportHeight itemHeight
  (max 0 (start - bufferSize), min itemCount (start + visibleCount + bufferSize))

/-- Removal pass of `VirtualList.render`: release every handle whose id is
not among the visible ids (only the key set of `renderedElements` is
tracked; handles are opaque). -/
def renderRemove (rendered : List String) (visibleIds : List String) : List String :=
  rendered.filter (fun k => visibleIds.contains k)

/-- Insertion loop of `VirtualList.render`: for each index in the range,
skip missing items, reuse an existing handle (same key, possibly replaced
element) or create a new one. -/
def renderInsert (items : List VItem) (rendered : List String) (idxs : List Nat) :
    List String :=
  idxs.foldl
    (fun acc i =>
      match items[i]? with
      | none => acc
      | some item => if acc.contains item.id then acc else acc ++ [item.id])
    rendered

/-- A full `VirtualList.render` pass over the range `[s, e)`: removal then
insertion. -/
def renderPass (items : List VItem) (rendered : List String) (s e : Nat) : List String :=
  renderInsert items
    (renderRemove rendered (((items.drop s).take (e - s)).map (fun it => it.id)))
    (List.range' s (e - s))

/-- Model of `extractFileName`: last path segment after `/` or `\`, or the
whole path when that segment is empty. -/
def extractFileName (path : String) : String :=
  if path == "" then ""
  else
    let last : String := ⟨(path.data.reverse.takeWhile (fun c => !(c == '/' || c == '\\'))).reverse⟩
    if last == "" then path else last

/-- Source `BoundFileHandleType`: `'none' | 'fsa' | 'electron' | 'tauri'`. -/
inductive BoundFileHandleType where
  | none
  | fsa
  | electron
  | tauri
  deriving Repr, DecidableEq

/-- The autosave slice of the app state.  `boundFileHandle` records presence
of the FileSystemAccess handle object, `lastAutosaveSet` presence of
`lastAutosaveAt`, and the two timer flags whether the interval / debounce
timers are armed; `statusText`/`statusVariant` model the status line written
by `updateAutosaveStatusText`. -/
structure AutosaveState where
  boundFileHandle : Bool
  boundFileName : String
  boundFileHandleType : BoundFileHandleType
  boundFilePath : String
  lastAutosaveSet : Bool
  statusText : String
  statusVariant : String
  intervalArmed : Bool
  debounceArmed : Bool
  deriving Repr, DecidableEq

/-- Source `hasBoundFile()`. -/
def hasBoundFile (s : AutosaveState) : Bool :=
  match s.boundFileHandleType with
  | .fsa => s.boundFileHandle
  | .electron => s.boundFilePath != ""
  | .tauri => s.boundFilePath != ""
  | .none => false

/-- Source `getBoundFileLabel()`. -/
def getBoundFileLabel (s : AutosaveState) : String :=
  if s.boundFileName != "" then s.boundFileName
  else
    match s.boundFileHandleType with
    | .electron => if s.boundFilePath != "" then extractFileName s.boundFilePath
        else "formulas.json"
    | .tauri => if s.boundFilePath != "" then extractFileName s.boundFilePath
        else "formulas.json"
    | _ => "formulas.json"

/-- Source `stopAutoSave()`: clear both the interval and the debounce timer. -/
def stopAutoSave (s : AutosaveState) : AutosaveState :=
  { s with intervalArmed := false, debounceArmed := false }

/-- Source `updateAutosaveStatusText(text, {variant})`. -/
def updateAutosaveStatusText (s : AutosaveState) (text variant : String) : AutosaveState :=
  { s with statusText := text, statusVariant := variant }

/-- Source `unbindAutosaveFile(message?, variant?)` (absent arguments are `none`;
the source treats an empty message as absent via `||`). -/
def unbindAutosaveFile (s : AutosaveState) (message : Option String)
    (variant : Option String) : AutosaveState :=
  let s1 := stopAutoSave s
  let s2 :=
    { s1 with
      boundFileHandle := false, boundFileName := "",
      boundFileHandleType := BoundFileHandleType.none, boundFilePath := "",
      lastAutosaveSet := false }
  match message with
  | none => updateAutosaveStatusText s2 "未绑定自动保存文件" "normal"
  | some m =>
    updateAutosaveStatusText s2 m
      (match variant with
        | some v => v
        | none => "error")

/-- Outcome of the underlying write (the external world's contribution). -/
inductive WriteOutcome where
  | ok
  | fail (message : String)
  deriving Repr, DecidableEq

/-- Source `saveToBoundFile()`, parameterized by the write outcome and the displayed
save time; the Bool records whether a write was attempted. -/
def saveToBoundFile (s : AutosaveState) (outcome : WriteOutcome) (now : String) :
    AutosaveState × Bool :=
  if hasBoundFile s = false then (s, false)
  else
    match outcome with
    | .ok =>
      (updateAutosaveStatusText { s with lastAutosaveSet := true }
        ("已自动保存到 " ++ getBoundFileLabel s ++ " · " ++ now) "normal", true)
    | .fail message =>
      (unbindAutosaveFile s (some ("自动保存失败：" ++ message)) none, true)

/-- Source `scheduleAutosave()`: arm (or re-arm) the debounce timer when bound. -/
def scheduleAutosave (s : AutosaveState) : AutosaveState :=
  if hasBoundFile s = false then s
  else { s with debounceArmed := true }

/-- Events that can drive the autosave machinery after a failure: further
mutations (which call `scheduleAutosave`), and timer callbacks, which only
run while their timer is armed.  (Re-binding is deliberately absent: the
claim quantifies over what happens until the user rebinds.) -/
inductive AutosaveEvent where
  | mutate
  | debounceFire (outcome : WriteOutcome) (now : String)
  | intervalTick (outcome : WriteOutcome) (now : String)
  deriving Repr, DecidableEq

/-- One autosave event; the Bool records whether a write was attempted. -/
def autosaveStep (s : AutosaveState) : AutosaveEvent → AutosaveState × Bool
  | .mutate => (scheduleAutosave s, false)
  | .debounceFire o now =>
    if s.debounceArmed then saveToBoundFile { s with debounceArmed := false } o now
    else (s, false)
  | .intervalTick o now =>
    if s.intervalArmed then saveToBoundFile s o now
    else (s, false)

/-- Run a sequence of autosave events, counting attempted writes. -/
def autosaveRun (s : AutosaveState) : List AutosaveEvent → AutosaveState × Nat
  | [] => (s, 0)
  | e :: rest =>
    let r := autosaveStep s e
    let q := autosaveRun r.1 rest
    (q.1, (if r.2 then 1 else 0) + q.2)

/-- Source `getSelectedTemplateCategory()`: `null` for the "all" pseudo-category,
else the first category carrying the selected id. -/
def getSelectedTemplateCategory (lib : TemplateLibrary) : Option TemplateCategory :=
  if lib.selectedCategoryId == ALL_CATEGORY_ID then none
  else findCat lib.categories lib.selectedCategoryId

/-- The recompute loop inside `getAllTemplates()`: every template paired with
its owning category, in category order (the two nested `for` loops). -/
def computeAllTemplates (lib : TemplateLibrary) : List (TemplateItem × TemplateCategory) :=
  lib.categories.foldr
    (fun category acc => category.templates.map (fun t => (t, category)) ++ acc) []

/-- The closure state of the memoized `getAllTemplates`: the variables
`cache` (initially `null`) and `lastCategoriesLength` (initially `0`). -/
structure AllTemplatesMemo where
  cache : Option (List (TemplateItem × TemplateCategory))
  lastCategoriesLength : Nat
  deriving Repr, DecidableEq

/-- The initial closure state of `getAllTemplates`. -/
def allTemplatesMemoInit : AllTemplatesMemo :=
  { cache := none, lastCategoriesLength := 0 }

/-- Source `getAllTemplates()`: the result is memoized, and the memo is reused
whenever `cache` is set and `lastCategoriesLength` equals the current number
of categories — the category count is the entire invalidation key, so
mutations that keep the count unchanged do not refresh the memo. -/
def getAllTemplates (lib : TemplateLibrary) (m : AllTemplatesMemo) :
    List (TemplateItem × TemplateCategory) × AllTemplatesMemo :=
  match m.cache with
  | some cached =>
    if m.lastCategoriesLength == lib.categories.length then (cached, m)
    else
      let result := computeAllTemplates lib
      (result, { cache := some result, lastCategoriesLength := lib.categories.length })
  | none =>
    let result := computeAllTemplates lib
    (result, { cache := some result, lastCategoriesLength := lib.categories.length })

/-- The scope selection of `renderTemplateList()`: all templates (through the
memoized `getAllTemplates`) for the "all" pseudo-category, else the selected
category's own templates. -/
def scopedTemplates (lib : TemplateLibrary) (m : AllTemplatesMemo) :
    List (TemplateItem × TemplateCategory) × AllTemplatesMemo :=
  let activeCategoryId :=
    if lib.selectedCategoryId == "" then ALL_CATEGORY_ID else lib.selectedCategoryId
  if activeCategoryId == ALL_CATEGORY_ID then getAllTemplates lib m
  else
    match getSelectedTemplateCategory lib with
    | some cat => (cat.templates.map (fun t => (t, cat)), m)
    | none => ([], m)

/-- The filter predicate of `renderTemplateList()`: an empty query matches
everything, otherwise the lowercased haystack
`name + ' ' + note + ' ' + latex + ' ' + category.name` must contain the
query. -/
def templateHaystackMatch (search : String) (e : TemplateItem × TemplateCategory) : Bool :=
  if search == "" then true
  else
    containsSubstr
      (jsToLower (e.1.name ++ " " ++ e.1.note ++ " " ++ e.1.latex ++ " " ++ e.2.name)) search

/-- The list-producing pipeline of `renderTemplateList()`, threading the
memo closure state of `getAllTemplates` (the early empty-library return does
not touch the memo). -/
def renderTemplateListModel (lib : TemplateLibrary) (searchTermRaw : String)
    (m : AllTemplatesMemo) :
    List (TemplateItem × TemplateCategory) × AllTemplatesMemo :=
  if lib.categories.length == 0 then ([], m)
  else if (scopedTemplates lib m).1.length == 0 then ([], (scopedTemplates lib m).2)
  else
    ((scopedTemplates lib m).1.filter
        (templateHaystackMatch (jsToLower (jsTrim searchTermRaw))),
      (scopedTemplates lib m).2)

/-- Modelled from the spec: the claim's search predicate — the template's
name, note, or latex alone case-insensitively contains the query substring
(the owning category's name is NOT among the searched fields). -/
def claimFieldMatch (query : String) (t : TemplateItem) : Bool :=
  containsSubstr (jsToLower t.name) (jsToLower (jsTrim query))
    || containsSubstr (jsToLower t.note) (jsToLower (jsTrim query))
    || containsSubstr (jsToLower t.latex) (jsToLower (jsTrim query))

/-- JSON values, the result of a successful `JSON.parse`.  Numbers are
modelled as integers (the only numeric field the importer reads is the
integer display index). -/
inductive Json where
  | null
  | bool (b : Bool)
  | num (n : Int)
  | str (s : String)
  | arr (items : List Json)
  | obj (fields : List (String × Json))

/-- JS property access on a parsed object; with duplicate keys `JSON.parse`
keeps the last occurrence, hence the reversed search. -/
def getField (fields : List (String × Json)) (key : String) : Option Json :=
  (fields.reverse.find? (fun p => p.1 == key)).map (fun p => p.2)

/-- JS truthiness of a JSON value. -/
def jsonTruthy : Json → Bool
  | .null => false
  | .bool b => b
  | .num n => !(n == 0)
  | .str s => !(s == "")
  | .arr _ => true
  | .obj _ => true

/-- A formula entry: `{id, index, latex, note?}` (absent note is `''`). -/
structure FormulaItem where
  id : String
  index : Int
  latex : String
  note : String
  deriving Repr, DecidableEq

/-- One step of the sanitizing `.map` inside `importJsonText`: entries that
are not objects or lack a non-empty (after trim) string `latex` are dropped;
a missing string `id` is regenerated, a missing numeric `index` defaults to
position + 1, a missing string `note` becomes `''`. -/
def sanitizeFormulaEntry (item : Json) (idx : Nat) (ctr : Nat) : Option FormulaItem × Nat :=
  match item with
  | .obj fields =>
    match getField fields "latex" with
    | some (.str l) =>
      let latex := jsTrim l
      if latex == "" then (none, ctr)
      else
        let r :=
          match getField fields "id" with
          | some (.str i) => (i, ctr)
          | _ => (generateId "formula" ctr, ctr + 1)
        let indexv : Int :=
          match getField fields "index" with
          | some (.num n2) => n2
          | _ => (idx : Int) + 1
        let notev :=
          match getField fields "note" with
          | some (.str nt) => jsTrim nt
          | _ => ""
        (some { id := r.1, index := indexv, latex := latex, note := notev }, r.2)
    | _ => (none, ctr)
  | _ => (none, ctr)

/-- The sanitizing `.map(...).filter(Boolean)` over a parsed array, threading
the fresh-id counter. -/
def sanitizeFormulas (items : List Json) (ctr0 : Nat) : List FormulaItem × Nat :=
  (items.enum).foldl
    (fun st p =>
      let r := sanitizeFormulaEntry p.2 p.1 st.2
      match r.1 with
      | some f => (st.1 ++ [f], r.2)
      | none => (st.1, r.2))
    ([], ctr0)

/-- Modelled from the spec: an imported entry passes validation iff it is an
object with a non-empty (after trim) string `latex`. -/
def entryHasValidLatex (item : Json) : Bool :=
  match item with
  | .obj fields =>
    match getField fields "latex" with
    | some (.str l) => !(jsTrim l == "")
    | _ => false
  | _ => false

/-- Result of an import operation on the formula collection. -/
structure ImportOutcome where
  ok : Bool
  formulas : List FormulaItem
  nextIndex : Int
  message : Option String
  deriving Repr, DecidableEq

/-- Source `applyImportedFormulas`: install the sanitized entries and recompute
`nextIndex` as `max(existing index) + 1 || 1`. -/
def applyImportedFormulas (sanitized : List FormulaItem) : ImportOutcome :=
  let maxIndex := sanitized.foldl (fun mx entry => max mx entry.index) 0
  { ok := true, formulas := sanitized,
    nextIndex := if maxIndex + 1 == 0 then 1 else maxIndex + 1,
    message := none }

/-- Source `importJsonText` (browser path), over the outcome of `JSON.parse`
(`none` models a parse error).  A thrown error is caught and surfaced as the
alert message; the in-memory collection (`state0`, `nextIndex0`) is then left
unchanged. -/
def importJsonText (state0 : List FormulaItem) (nextIndex0 : Int) (parsed : Option Json)
    (ctr : Nat) : ImportOutcome :=
  match parsed with
  | none =>
    { ok := false, formulas := state0, nextIndex := nextIndex0,
      message := some "导入失败：文件内容不是有效的 JSON 格式" }
  | some j =>
    match j with
    | .arr items => applyImportedFormulas (sanitizeFormulas items ctr).1
    | .obj fields =>
      match getField fields "categories" with
      | some v =>
        if jsonTruthy v then
          { ok := false, formulas := state0, nextIndex := nextIndex0,
            message := some "导入失败：这是模板库文件，请使用“绑定模板”功能导入" }
        else
          { ok := false, formulas := state0, nextIndex := nextIndex0,
            message := some "导入失败：文件格式错误：公式集必须是 JSON 数组" }
      | none =>
        { ok := false, formulas := state0, nextIndex := nextIndex0,
          message := some "导入失败：文件格式错误：公式集必须是 JSON 数组" }
    | _ =>
      { ok := false, formulas := state0, nextIndex := nextIndex0,
        message := some "导入失败：文件格式错误：公式集必须是 JSON 数组" }

/-- Source `exportJson` (browser path): the serialized payload, as a JSON value
(serializing to text and re-parsing is the identity on JSON values, so the
text layer is elided). -/
def formulaToJson (f : FormulaItem) : Json :=
  .obj [("id", .str f.id), ("index", .num f.index), ("latex", .str f.latex),
    ("note", .str f.note)]

/-- The exported formula collection. -/
def exportJson (formulas : List FormulaItem) : Json := .arr (formulas.map formulaToJson)

/-- A raw template object of an imported library tree; `none` models a field
that is missing or not a string. -/
structure RawTpl where
  id : Option String
  name : Option String
  latex : Option String
  note : Option String

/-- A raw category node of an imported library tree; a `none` list field is
one that is missing or not an array. -/
inductive RawCat where
  | mk (id : Option String) (name : Option String) (templates : Option (List RawTpl))
      (parentId : Option String) (categories : Option (List RawCat))
      (children : Option (List RawCat))

/-- The raw `id` field. -/
def RawCat.rawId : RawCat → Option String
  | .mk i _ _ _ _ _ => i

/-- The raw `name` field. -/
def RawCat.rawName : RawCat → Option String
  | .mk _ n _ _ _ _ => n

/-- The raw `templates` field. -/
def RawCat.rawTemplates : RawCat → Option (List RawTpl)
  | .mk _ _ t _ _ _ => t

/-- The raw `parentId` field. -/
def RawCat.rawParentId : RawCat → Option String
  | .mk _ _ _ p _ _ => p

/-- The raw `categories` field. -/
def RawCat.rawCategories : RawCat → Option (List RawCat)
  | .mk _ _ _ _ c _ => c

/-- The raw `children` field. -/
def RawCat.rawChildren : RawCat → Option (List RawCat)
  | .mk _ _ _ _ _ c => c

/-- The template-sanitizing `.map(...).filter(Boolean)` inside
`normalizeTemplateCategories`: entries without a non-empty trimmed latex are
dropped; missing ids are generated (threading the counter), missing names
default to `模板 (index+1)`, missing notes become `''`. -/
def normalizeRawTemplates (tpls : List RawTpl) (ctr0 : Nat) : List TemplateItem × Nat :=
  tpls.enum.foldl
    (fun st p =>
      let tplIdx := p.1
      let tpl := p.2
      let latex := match tpl.latex with | some l => jsTrim l | none => ""
      if latex == "" then st
      else
        let r :=
          match tpl.id with
          | some i => if i == "" then (generateId "template" st.2, st.2 + 1) else (i, st.2)
          | none => (generateId "template" st.2, st.2 + 1)
        let namev :=
          match tpl.name with
          | some nm => if jsTrim nm == "" then "模板 " ++ toString (tplIdx + 1) else jsTrim nm
          | none => "模板 " ++ toString (tplIdx + 1)
        let notev := match tpl.note with | some nt => jsTrim nt | none => ""
        (st.1 ++ [{ id := r.1, name := namev, latex := latex, note := notev }], r.2))
    ([], ctr0)

/-- Source `normalizeTemplateCategories(categories, parentId, depth, acc)`: the
recursion is bounded by `depth > 6`; we count fuel downwards
(`fuel = 7 - depth`), so the top-level call has fuel 6 and fuel 0 is exactly
the `depth > 6` cut.  The fresh-id counter is threaded through. -/
def normalizeAux : Nat → List RawCat → Option String → List TemplateCategory → Nat →
    List TemplateCategory × Nat
  | 0, _, _, acc, ctr => (acc, ctr)
  | Nat.succ f, nodes, parentId, acc, ctr =>
    nodes.enum.foldl
      (fun st p =>
        let idx := p.1
        let node := p.2
        let name := match node.rawName with | some nm => jsTrim nm | none => ""
        let tr :=
          match node.rawTemplates with
          | some ts => normalizeRawTemplates ts st.2
          | none => ([], st.2)
        let ir :=
          match node.rawId with
          | some i => if i == "" then (generateId "category" tr.2, tr.2 + 1) else (i, tr.2)
          | none => (generateId "category" tr.2, tr.2 + 1)
        let safeName := if name == "" then "分类 " ++ toString (idx + 1) else name
        let effParent :=
          match node.rawParentId with
          | some p2 => if p2 == "" then parentId else some p2
          | none => parentId
        let acc2 := st.1 ++
          [{ id := ir.1, name := safeName, templates := tr.1, parentId := effParent }]
        let childCategories :=
          match node.rawCategories with
          | some cs => some cs
          | none => node.rawChildren
        match childCategories with
        | some cs => normalizeAux f cs (some ir.1) acc2 ir.2
        | none => (acc2, ir.2))
      (acc, ctr)

/-- The importer's entry point for a template tree: a non-array input yields
the (empty) accumulator, like `if (!Array.isArray(categories)) return acc`. -/
def normalizeTemplateCategories (categories : Option (List RawCat)) :
    List TemplateCategory × Nat :=
  match categories with
  | none => ([], 0)
  | some nodes => normalizeAux 6 nodes none [] 0

/-- A linear chain of `n` nested raw categories (each level nests its child
under the legacy `categories` key), every level missing its id and name and
carrying one template with trimmable latex and one template without latex. -/
def chainRaw : Nat → List RawCat
  | 0 => []
  | Nat.succ n =>
    [RawCat.mk none none
      (some
        [{ id := none, name := none, latex := some " x ", note := none },
         { id := some "skip", name := some "bad", latex := some "   ", note := none }])
      none (some (chainRaw n)) none]

/-- The normalized output the chain family must flatten to: exactly six
levels, parent-linked, with synthesized ids/names and the latex-less
template dropped. -/
def chainExpected : List TemplateCategory :=
  [{ id := "category-1", name := "分类 1",
     templates := [{ id := "template-0", name := "模板 1", latex := "x", note := "" }],
     parentId := none },
   { id := "category-3", name := "分类 1",
     templates := [{ id := "template-2", name := "模板 1", latex := "x", note := "" }],
     parentId := some "category-1" },
   { id := "category-5", name := "分类 1",
     templates := [{ id := "template-4", name := "模板 1", latex := "x", note := "" }],
     parentId := some "category-3" },
   { id := "category-7", name := "分类 1",
     templates := [{ id := "template-6", name := "模板 1", latex := "x", note := "" }],
     parentId := some "category-5" },
   { id := "category-9", name := "分类 1",
     templates := [{ id := "template-8", name := "模板 1", latex := "x", note := "" }],
     parentId := some "category-7" },
   { id := "category-11", name := "分类 1",
     templates := [{ id := "template-10", name := "模板 1", latex := "x", note := "" }],
     parentId := some "category-9" }]

/-- Source `saveTemplateEntry`, with the dialog results and editor contents as
parameters: `templateNameRaw` is the name input, `latex` the value of
`getCurrentLatex()` (`""` when there is nothing to save), `noteRaw` the note
input, `confirmOverwrite` the overwrite confirmation, and `genId` the id
generated for a newly appended entry. -/
def saveTemplateEntry (lib : TemplateLibrary) (templateNameRaw latex noteRaw : String)
    (confirmOverwrite : Bool) (genId : String) : TemplateLibrary :=
  match getSelectedTemplateCategory lib with
  | none => lib
  | some category =>
    let templateName := jsTrim templateNameRaw
    if templateName == "" then lib
    else if latex == "" then lib
    else
      let note := jsTrim noteRaw
      match category.templates.find? (fun tpl => tpl.name == templateName) with
      | some existing =>
        if !confirmOverwrite then lib
        else
          let payload : TemplateItem :=
            { id := existing.id, name := templateName, latex := latex, note := note }
          { lib with
            categories := updateFirstCat lib.categories category.id
              (fun c =>
                { c with templates :=
                    c.templates.map (fun tpl => if tpl.id == existing.id then payload else tpl) }) }
      | none =>
        let payload : TemplateItem :=
          { id := genId, name := templateName, latex := latex, note := note }
        { lib with
          categories := updateFirstCat lib.categories category.id
            (fun c => { c with templates := c.templates ++ [payload] }) }

/-- The shape of a successfully parsed `JSON.parse(content)` as
`importTemplateText` dispatches on it: a top-level array (used directly as
the category list), an object whose `categories` field is an array (that
array is used), or any other value — for those, `categories` becomes the
parsed value itself, which is not an array, so `normalizeTemplateCategories`
returns its empty accumulator. -/
inductive TemplateImport where
  | arr (cats : List RawCat)
  | objWithCategories (cats : List RawCat)
  | other

/-- The result of a call to `importTemplateText` (browser path): the template
library after the call, the surfaced message (the status text it sets, or the
alerted text on a parse error), and the returned boolean. -/
structure TemplateImportOutcome where
  library : TemplateLibrary
  message : String
  ok : Bool
  deriving Repr, DecidableEq

/-- Source `importTemplateText(content)` (browser path), over the outcome of
`JSON.parse` (`none` models a parse error, whose message `errMsg` the catch
branch alerts, returning `false` with the library untouched).  On ANY
successful parse the normalized categories replace
`state.templateLibrary.categories` unconditionally and the selection resets
to the "all" pseudo-category; the status then reports the new category count,
or `模板文件为空` when that count is zero, and the call returns `true`. -/
def importTemplateText (lib : TemplateLibrary) (parsed : Option TemplateImport)
    (errMsg : String) : TemplateImportOutcome :=
  match parsed with
  | none => { library := lib, message := "导入模板失败：" ++ errMsg, ok := false }
  | some p =>
    let categories :=
      match p with
      | .arr cs => (normalizeTemplateCategories (some cs)).1
      | .objWithCategories cs => (normalizeTemplateCategories (some cs)).1
      | .other => (normalizeTemplateCategories none).1
    let lib1 : TemplateLibrary :=
      { categories := categories, selectedCategoryId := ALL_CATEGORY_ID }
    if categories.length == 0 then
      { library := lib1, message := "模板文件为空", ok := true }
    else
      { library := lib1,
        message := "已加载 " ++ toString categories.length ++ " 个模板分类", ok := true }

/-- A one-category library (all scope selected) used to exercise the
all-templates memo. -/
def memoLib0 : TemplateLibrary :=
  { categories :=
      [{ id := "c1", name := "Algebra",
         templates := [{ id := "t1", name := "Identity", latex := "x", note := "" }],
         parentId := none }],
    selectedCategoryId := "__all__" }

/-- The memo closure state after an initial all-scope render of `memoLib0`. -/
def memoPrimed : AllTemplatesMemo :=
  (renderTemplateListModel memoLib0 "" allTemplatesMemoInit).2

/-- The library `memoLib0` after the user selects category `c1`, saves a new
template named `Euler` into it, and selects the all scope again.  The number
of categories is unchanged by the save. -/
def memoLib1 : TemplateLibrary :=
  { saveTemplateEntry { memoLib0 with selectedCategoryId := "c1" }
        "Euler" "e" "" false "t2" with
    selectedCategoryId := "__all__" }

/-- A populated template library for the wrong-shape import trace. -/
def tplLib0 : TemplateLibrary :=
  { categories :=
      [{ id := "c1", name := "Algebra",
         templates := [{ id := "t1", name := "Identity", latex := "x", note := "" }],
         parentId := none }],
    selectedCategoryId := "c1" }

/-!
## Theorems

First the claim theorems that are settled by direct evaluation, then the
forest theory used by the structural claims, then the remaining claims.
-/

/-- C1: the claim that the descendant-id cache is fully cleared on every
structural mutation FAILS on the code: `handleCreateTemplateCategory` pushes
the new category without clearing `descendantCategoryIdsCache`.  Concretely:
create category `A`, read `getDescendantCategoryIds(A)` (as the tree renderer
does, priming the cache), then create subcategory `B` under `A`; the next
read still returns the stale `[A]` although `B` is a transitive descendant of
`A` in the current category list. -/
theorem c1_stale_descendant_cache_after_create :
    (getDescendantCategoryIds
        (runOps initialStoreState
          [StoreOp.create "A" false, StoreOp.readDesc "category-0",
            StoreOp.create "B" false]) "category-0" = ["category-0"])
      ∧ (isInSubtree
          (runOps initialStoreState
            [StoreOp.create "A" false, StoreOp.readDesc "category-0",
              StoreOp.create "B" false]).library.categories 2 "category-0" "category-1" = true)
      ∧ "category-1" ∉ getDescendantCategoryIds
          (runOps initialStoreState
            [StoreOp.create "A" false, StoreOp.readDesc "category-0",
              StoreOp.create "B" false]) "category-0" := by
  decide

/-- Filtering with a weaker predicate keeps at least as many elements. -/
theorem length_filter_mono {α : Type} (p q : α → Bool) :
    ∀ l : List α, (∀ x ∈ l, q x = true → p x = true) →
      (l.filter q).length ≤ (l.filter p).length := by
  intro l
  induction l with
  | nil => intro _; simp
  | cons b t ih =>
    intro h
    have ht : ∀ x ∈ t, q x = true → p x = true := fun x hx => h x (List.mem_cons_of_mem b hx)
    have iht := ih ht
    by_cases hq : q b = true
    · rw [List.filter_cons_of_pos hq, List.filter_cons_of_pos (h b (List.mem_cons_self b t) hq)]
      exact Nat.succ_le_succ iht
    · rw [List.filter_cons_of_neg hq]
      by_cases hp : p b = true
      · rw [List.filter_cons_of_pos hp]
        exact Nat.le_succ_of_le iht
      · rw [List.filter_cons_of_neg hp]
        exact iht

/-- Filtering with a strictly weaker predicate (weaker, plus a member on
which they disagree) keeps strictly more elements. -/
theorem length_filter_lt {α : Type} (p q : α → Bool) (a : α) :
    ∀ l : List α, (∀ x ∈ l, q x = true → p x = true) →
      a ∈ l → p a = true → q a = false →
      (l.filter q).length < (l.filter p).length := by
  intro l
  induction l with
  | nil => intro _ ha; cases ha
  | cons b t ih =>
    intro h ha hpa hqa
    have ht : ∀ x ∈ t, q x = true → p x = true := fun x hx => h x (List.mem_cons_of_mem b hx)
    rcases List.mem_cons.mp ha with rfl | hat
    · rw [List.filter_cons_of_pos hpa, List.filter_cons_of_neg (by simp [hqa])]
      exact Nat.lt_succ_of_le (length_filter_mono p q t ht)
    · have iht := ih ht hat hpa hqa
      by_cases hq : q b = true
      · rw [List.filter_cons_of_pos hq, List.filter_cons_of_pos (h b (List.mem_cons_self b t) hq)]
        exact Nat.succ_lt_succ iht
      · rw [List.filter_cons_of_neg hq]
        by_cases hp : p b = true
        · rw [List.filter_cons_of_pos hp]
          exact Nat.lt_succ_of_lt iht
        · rw [List.filter_cons_of_neg hp]
          exact iht

/-- A successful `findCat` returns a member carrying the requested id. -/
theorem findCat_mem {cats : List TemplateCategory} {cid : String} {c : TemplateCategory}
    (h : findCat cats cid = some c) : c ∈ cats ∧ c.id = cid := by
  refine ⟨List.mem_of_find?_eq_some h, ?_⟩
  have := List.find?_some h
  simpa using this

/-- With distinct ids, `findCat` recovers exactly the member itself. -/
theorem findCat_of_mem_nodup {cats : List TemplateCategory}
    (hnd : (cats.map (fun c => c.id)).Nodup) {c : TemplateCategory} (hc : c ∈ cats) :
    findCat cats c.id = some c := by
  induction cats with
  | nil => cases hc
  | cons b t ih =>
    rcases List.mem_cons.mp hc with rfl | hct
    · simp [findCat, List.find?]
    · have hb : b.id ≠ c.id := by
        intro he
        have : c.id ∈ t.map (fun c => c.id) := List.mem_map_of_mem _ hct
        rw [List.map_cons, List.nodup_cons, he] at hnd
        exact hnd.1 this
      have hnd2 : (t.map (fun c => c.id)).Nodup := by
        rw [List.map_cons, List.nodup_cons] at hnd
        exact hnd.2
      rw [findCat, List.find?]
      have : (b.id == c.id) = false := by
        simpa using hb
      rw [this]
      exact ih hnd2 hct

/-- Fuel monotonicity of the spec-side subtree predicate. -/
theorem isInSubtree_mono (cats : List TemplateCategory) :
    ∀ f g root d, f ≤ g → isInSubtree cats f root d = true →
      isInSubtree cats g root d = true := by
  intro f
  induction f with
  | zero =>
    intro g root d _ h
    rw [isInSubtree] at h
    cases g with
    | zero => exact h
    | succ g => rw [isInSubtree, h, Bool.true_or]
  | succ f ih =>
    intro g root d hle h
    cases g with
    | zero => omega
    | succ g =>
      rw [isInSubtree] at h
      rw [isInSubtree]
      rcases Bool.or_eq_true_iff.mp h with h1 | h2
      · rw [h1, Bool.true_or]
      · apply Bool.or_eq_true_iff.mpr
        right
        cases hfc : findCat cats d with
        | none => simp only [hfc] at h2; exact Bool.noConfusion h2
        | some c =>
          simp only [hfc] at h2 ⊢
          cases hp : c.parentId with
          | none => simp only [hp] at h2; exact Bool.noConfusion h2
          | some p =>
            simp only [hp] at h2 ⊢
            exact ih g root p (Nat.le_of_succ_le_succ hle) h2

/-- The subtree predicate is reflexive at any fuel. -/
theorem isInSubtree_refl (cats : List TemplateCategory) (f : Nat) (r : String) :
    isInSubtree cats f r r = true := by
  cases f with
  | zero => simp [isInSubtree]
  | succ f => simp [isInSubtree]

/-- Walking up parent links strictly decreases rank, so a successful subtree
walk needs no more fuel than the number of categories of rank at most the
rank of the start node. -/
theorem isInSubtree_compress (cats : List TemplateCategory) (rank : String → Nat)
    (hrk : ∀ c ∈ cats, parentRankOk rank c = true) :
    ∀ f d root, isInSubtree cats f root d = true →
      isInSubtree cats (countLE cats rank d) root d = true := by
  intro f
  induction f with
  | zero =>
    intro d root h
    rw [isInSubtree] at h
    have hd : d = root := by simpa using h
    subst hd
    exact isInSubtree_refl cats _ d
  | succ f ih =>
    intro d root h
    rw [isInSubtree] at h
    rcases Bool.or_eq_true_iff.mp h with h1 | h2
    · have hd : d = root := by simpa using h1
      subst hd
      exact isInSubtree_refl cats _ d
    · cases hfc : findCat cats d with
      | none => simp only [hfc] at h2; exact Bool.noConfusion h2
      | some c =>
        simp only [hfc] at h2
        cases hp : c.parentId with
        | none => simp only [hp] at h2; exact Bool.noConfusion h2
        | some p =>
          simp only [hp] at h2
          have ihp := ih p root h2
          obtain ⟨hcmem, hcid⟩ := findCat_mem hfc
          have hranks : rank p < rank d := by
            have hc := hrk c hcmem
            rw [parentRankOk, hp] at hc
            rw [← hcid]
            exact of_decide_eq_true hc
          have hlt : countLE cats rank p < countLE cats rank d := by
            apply length_filter_lt _ _ c
            · intro x _ hq
              exact decide_eq_true (le_trans (of_decide_eq_true hq) (le_of_lt hranks))
            · exact hcmem
            · exact decide_eq_true (by rw [hcid])
            · apply decide_eq_false
              rw [hcid]
              omega
          cases hcle : countLE cats rank d with
          | zero => omega
          | succ n =>
            rw [isInSubtree]
            apply Bool.or_eq_true_iff.mpr
            right
            simp only [hfc, hp]
            refine isInSubtree_mono cats _ n root p ?_ ihp
            omega

/-- A subtree walk that succeeds at any fuel succeeds at fuel
`cats.length`. -/
theorem isInSubtree_norm (cats : List TemplateCategory) (rank : String → Nat)
    (hrk : ∀ c ∈ cats, parentRankOk rank c = true) {f : Nat} {d root : String}
    (h : isInSubtree cats f root d = true) :
    isInSubtree cats cats.length root d = true := by
  refine isInSubtree_mono cats _ _ root d ?_ (isInSubtree_compress cats rank hrk f d root h)
  exact le_trans (List.length_filter_le _ _) (le_refl _)

/-- Extending a subtree walk by one parent edge at the top: if the walk from
`d` reaches `mid`, and the category with id `mid` has parent `root2`, then
the walk from `d` reaches `root2`. -/
theorem isInSubtree_extend (cats : List TemplateCategory) {mid : String}
    {cm : TemplateCategory} (hfc : findCat cats mid = some cm) {root2 : String}
    (hp : cm.parentId = some root2) :
    ∀ f d, isInSubtree cats f mid d = true →
      isInSubtree cats (f + 1) root2 d = true := by
  intro f
  induction f with
  | zero =>
    intro d h
    rw [isInSubtree] at h
    have hd : d = mid := by simpa using h
    subst hd
    rw [isInSubtree]
    apply Bool.or_eq_true_iff.mpr
    right
    simp only [hfc, hp]
    exact isInSubtree_refl cats 0 root2
  | succ f ih =>
    intro d h
    rw [isInSubtree] at h
    rcases Bool.or_eq_true_iff.mp h with h1 | h2
    · have hd : d = mid := by simpa using h1
      subst hd
      rw [isInSubtree]
      apply Bool.or_eq_true_iff.mpr
      right
      simp only [hfc, hp]
      exact isInSubtree_refl cats _ root2
    · cases hfc2 : findCat cats d with
      | none => simp only [hfc2] at h2; exact Bool.noConfusion h2
      | some c =>
        simp only [hfc2] at h2
        cases hp2 : c.parentId with
        | none => simp only [hp2] at h2; exact Bool.noConfusion h2
        | some p =>
          simp only [hp2] at h2
          rw [isInSubtree]
          apply Bool.or_eq_true_iff.mpr
          right
          simp only [hfc2, hp2]
          exact ih p h2

/-- A child found by `getTemplateChildren (some cid)` (for a nonempty `cid`,
in a list without empty-string parent links) is a member whose parent link is
exactly `cid`. -/
theorem child_parent_eq (cats : List TemplateCategory) {cid : String} (hcidne : cid ≠ "")
    {ch : TemplateCategory}
    (hch : ch ∈ getTemplateChildren cats (some cid)) :
    ch ∈ cats ∧ ch.parentId = some cid := by
  rw [getTemplateChildren] at hch
  have hmem := List.mem_of_mem_filter hch
  have hkey := List.of_mem_filter hch
  refine ⟨hmem, ?_⟩
  have hok : optKey ch.parentId = cid := by simpa [optKey] using hkey
  cases hpid : ch.parentId with
  | none =>
    rw [hpid] at hok
    exact absurd hok.symm (by simpa [optKey] using hcidne)
  | some p =>
    rw [hpid] at hok
    simp only [optKey] at hok
    rw [hok]

/-- Decomposition of the spec-side subtree: a node is in the subtree of `cid`
iff it is `cid` itself or lies in the subtree of one of `cid`'s children. -/
theorem subtree_decomp (cats : List TemplateCategory) (rank : String → Nat)
    (hnd : (cats.map (fun c => c.id)).Nodup)
    (hne : ∀ c ∈ cats, c.id ≠ "")
    (hrk : ∀ c ∈ cats, parentRankOk rank c = true)
    {cid : String} {cc : TemplateCategory} (hfcc : findCat cats cid = some cc) (d : String) :
    isInSubtree cats cats.length cid d = true ↔
      (d = cid ∨ ∃ ch ∈ getTemplateChildren cats (some cid),
        isInSubtree cats cats.length ch.id d = true) := by
  have hcidne : cid ≠ "" := by
    obtain ⟨hccm, hccid⟩ := findCat_mem hfcc
    rw [← hccid]
    exact hne cc hccm
  constructor
  · have haux : ∀ f d, isInSubtree cats f cid d = true →
        (d = cid ∨ ∃ ch ∈ getTemplateChildren cats (some cid),
          isInSubtree cats cats.length ch.id d = true) := by
      intro f
      induction f with
      | zero =>
        intro d h
        rw [isInSubtree] at h
        exact Or.inl (by simpa using h)
      | succ f ih =>
        intro d h
        rw [isInSubtree] at h
        rcases Bool.or_eq_true_iff.mp h with h1 | h2
        · exact Or.inl (by simpa using h1)
        · cases hfc : findCat cats d with
          | none => simp only [hfc] at h2; exact Bool.noConfusion h2
          | some c =>
            simp only [hfc] at h2
            cases hp : c.parentId with
            | none => simp only [hp] at h2; exact Bool.noConfusion h2
            | some p =>
              simp only [hp] at h2
              obtain ⟨hcmem, hcid⟩ := findCat_mem hfc
              rcases ih p h2 with rfl | ⟨ch, hchm, hchs⟩
              · -- the node `c` itself is a child of `cid`
                right
                refine ⟨c, ?_, ?_⟩
                · rw [getTemplateChildren]
                  apply List.mem_filter.mpr
                  exact ⟨hcmem, by simp [optKey, hp]⟩
                · rw [hcid]
                  exact isInSubtree_refl cats _ d
              · right
                refine ⟨ch, hchm, ?_⟩
                -- prepend the bottom step `d → p` to the walk from `p`
                have hstep : isInSubtree cats (cats.length + 1) ch.id d = true := by
                  rw [isInSubtree]
                  apply Bool.or_eq_true_iff.mpr
                  right
                  simp only [hfc, hp]
                  exact hchs
                exact isInSubtree_norm cats rank hrk hstep
    exact haux cats.length d
  · intro h
    rcases h with rfl | ⟨ch, hchm, hchs⟩
    · exact isInSubtree_refl cats _ d
    · obtain ⟨hchmem, hchp⟩ := child_parent_eq cats hcidne hchm
      have hfch : findCat cats ch.id = some ch := findCat_of_mem_nodup hnd hchmem
      exact isInSubtree_norm cats rank hrk
        (isInSubtree_extend cats hfch hchp cats.length d hchs)

/-- A successful cache lookup comes from an entry of the cache. -/
theorem cacheLookup_mem {cache : DescCache} {k : String} {v : List String}
    (h : cacheLookup cache k = some v) : ∃ e ∈ cache, e.1 = k ∧ e.2 = v := by
  rw [cacheLookup] at h
  cases hf : cache.find? (fun p => p.1 == k) with
  | none => rw [hf] at h; exact Option.noConfusion h
  | some e =>
    rw [hf] at h
    refine ⟨e, List.mem_of_find?_eq_some hf, ?_, ?_⟩
    · have := List.find?_some hf
      simpa using this
    · have hv : v = e.2 := by simpa using h.symm
      exact hv.symm

/-- On a cache hit, `descGo` returns the cached value unchanged. -/
theorem descGo_hit (cats : List TemplateCategory) (fuel : Nat) {cache : DescCache}
    {cid : String} {v : List String} (h : cacheLookup cache cid = some v) :
    descGo cats fuel cache cid = (v, cache) := by
  cases fuel with
  | zero => rw [descGo, h]
  | succ f => rw [descGo, h]

/-- Characterization of the child-accumulating fold inside `descGo`, given
the correctness of `descGo` at the inner fuel. -/
theorem descFold_spec (cats : List TemplateCategory) (rank : String → Nat) (f : Nat)
    (IH : ∀ (cache : DescCache) (cid : String), ExactCache cats cache →
      cid ∈ cats.map (fun c => c.id) → countGE cats rank cid ≤ f →
      (∀ d, d ∈ (descGo cats f cache cid).1 ↔ isInSubtree cats cats.length cid d = true)
        ∧ ExactCache cats (descGo cats f cache cid).2) :
    ∀ (children : List TemplateCategory) (acc : List String) (cache : DescCache),
      ExactCache cats cache →
      (∀ ch ∈ children, ch ∈ cats ∧ countGE cats rank ch.id ≤ f) →
      (∀ d, d ∈ (children.foldl
            (fun st child =>
              let r := descGo cats f st.2 child.id
              (st.1 ++ r.1, r.2)) (acc, cache)).1
          ↔ d ∈ acc ∨ ∃ ch ∈ children, isInSubtree cats cats.length ch.id d = true)
        ∧ ExactCache cats (children.foldl
            (fun st child =>
              let r := descGo cats f st.2 child.id
              (st.1 ++ r.1, r.2)) (acc, cache)).2 := by
  intro children
  induction children with
  | nil =>
    intro acc cache hex _
    refine ⟨fun d => ?_, hex⟩
    simp
  | cons ch rest ih =>
    intro acc cache hex hchs
    have hch := hchs ch (List.mem_cons_self ch rest)
    have hchid : ch.id ∈ cats.map (fun c => c.id) := List.mem_map_of_mem _ hch.1
    obtain ⟨hr1, hc1⟩ := IH cache ch.id hex hchid hch.2
    have hrest : ∀ x ∈ rest, x ∈ cats ∧ countGE cats rank x.id ≤ f :=
      fun x hx => hchs x (List.mem_cons_of_mem ch hx)
    obtain ⟨hfold, hexf⟩ :=
      ih (acc ++ (descGo cats f cache ch.id).1) (descGo cats f cache ch.id).2 hc1 hrest
    rw [List.foldl_cons]
    refine ⟨fun d => ?_, hexf⟩
    rw [hfold d]
    simp only [List.mem_append, hr1 d, List.mem_cons]
    constructor
    · rintro ((hd | hd) | ⟨x, hx, hs⟩)
      · exact Or.inl hd
      · exact Or.inr ⟨ch, Or.inl rfl, hd⟩
      · exact Or.inr ⟨x, Or.inr hx, hs⟩
    · rintro (hd | ⟨x, hx | hx, hs⟩)
      · exact Or.inl (Or.inl hd)
      · subst hx
        exact Or.inl (Or.inr hs)
      · exact Or.inr ⟨x, hx, hs⟩

/-- Main correctness of the memoized `getDescendantCategoryIds`: on a
well-formed forest, starting from an exact cache and with fuel at least the
rank-bound, the returned list holds exactly the subtree of the queried id and
the cache stays exact. -/
theorem descGo_correct (cats : List TemplateCategory) (rank : String → Nat)
    (hwf : WellFormedForest cats rank) :
    ∀ (fuel : Nat) (cache : DescCache) (cid : String), ExactCache cats cache →
      cid ∈ cats.map (fun c => c.id) → countGE cats rank cid ≤ fuel →
      (∀ d, d ∈ (descGo cats fuel cache cid).1 ↔ isInSubtree cats cats.length cid d = true)
        ∧ ExactCache cats (descGo cats fuel cache cid).2 := by
  obtain ⟨hnd, hne, hpne, hrk⟩ := hwf
  have hhit : ∀ (fuel : Nat) (cache : DescCache) (cid : String), ExactCache cats cache →
      ∀ v, cacheLookup cache cid = some v →
      (∀ d, d ∈ (descGo cats fuel cache cid).1 ↔ isInSubtree cats cats.length cid d = true)
        ∧ ExactCache cats (descGo cats fuel cache cid).2 := by
    intro fuel cache cid hex v hcl
    rw [descGo_hit cats fuel hcl]
    obtain ⟨e, hem, hek, hev⟩ := cacheLookup_mem hcl
    refine ⟨fun d => ?_, hex⟩
    have := hex e hem d
    rw [hek, hev] at this
    exact this
  intro fuel
  induction fuel with
  | zero =>
    intro cache cid hex hmem hcnt
    cases hcl : cacheLookup cache cid with
    | some v => exact hhit 0 cache cid hex v hcl
    | none =>
      exfalso
      obtain ⟨c, hc, hcid⟩ := List.mem_map.mp hmem
      have hcf : c ∈ cats.filter (fun c => decide (rank cid ≤ rank c.id)) := by
        apply List.mem_filter.mpr
        exact ⟨hc, by rw [hcid]; simp⟩
      have : 0 < countGE cats rank cid := by
        rw [countGE]
        exact List.length_pos.mpr (List.ne_nil_of_mem hcf)
      omega
  | succ f ihf =>
    intro cache cid hex hmem hcnt
    cases hcl : cacheLookup cache cid with
    | some v => exact hhit (f + 1) cache cid hex v hcl
    | none =>
      obtain ⟨cc, hccm, hccid⟩ := List.mem_map.mp hmem
      have hfcc : findCat cats cid = some cc := by
        rw [← hccid]
        exact findCat_of_mem_nodup hnd hccm
      have hcidne : cid ≠ "" := by rw [← hccid]; exact hne cc hccm
      have hchbound : ∀ ch ∈ getTemplateChildren cats (some cid),
          ch ∈ cats ∧ countGE cats rank ch.id ≤ f := by
        intro ch hch
        obtain ⟨hchm, hchp⟩ := child_parent_eq cats hcidne hch
        refine ⟨hchm, ?_⟩
        have hrlt : rank cid < rank ch.id := by
          have hokch := hrk ch hchm
          rw [parentRankOk, hchp] at hokch
          exact of_decide_eq_true hokch
        have hclt : countGE cats rank ch.id < countGE cats rank cid := by
          apply length_filter_lt _ _ cc
          · intro x _ hq
            exact decide_eq_true
              (le_trans (le_of_lt hrlt) (of_decide_eq_true hq))
          · exact hccm
          · exact decide_eq_true (by rw [hccid])
          · apply decide_eq_false
            rw [hccid]
            omega
        omega
      obtain ⟨hfold, hexf⟩ :=
        descFold_spec cats rank f ihf (getTemplateChildren cats (some cid)) [] cache hex hchbound
      have hgo : descGo cats (f + 1) cache cid =
          (cid :: ((getTemplateChildren cats (some cid)).foldl
              (fun st child =>
                let r := descGo cats f st.2 child.id
                (st.1 ++ r.1, r.2)) ([], cache)).1,
            (cid, cid :: ((getTemplateChildren cats (some cid)).foldl
              (fun st child =>
                let r := descGo cats f st.2 child.id
                (st.1 ++ r.1, r.2)) ([], cache)).1) ::
              ((getTemplateChildren cats (some cid)).foldl
                (fun st child =>
                  let r := descGo cats f st.2 child.id
                  (st.1 ++ r.1, r.2)) ([], cache)).2) := by
        rw [descGo, hcl]
      have hchar : ∀ d, (d ∈ cid :: ((getTemplateChildren cats (some cid)).foldl
            (fun st child =>
              let r := descGo cats f st.2 child.id
              (st.1 ++ r.1, r.2)) ([], cache)).1)
          ↔ isInSubtree cats cats.length cid d = true := by
        intro d
        rw [List.mem_cons, hfold d]
        rw [subtree_decomp cats rank hnd hne hrk hfcc d]
        simp
      constructor
      · intro d
        rw [hgo]
        exact hchar d
      · rw [hgo]
        intro e he d
        rcases List.mem_cons.mp he with rfl | he2
        · exact hchar d
        · exact hexf e he2 d

/-- C4: deleting a category is refused for the "all" pseudo-category;
otherwise (for an existing id, on a well-formed forest, with the cache in its
freshly-cleared state) it removes exactly the categories in the descendant
set of the given id — with their templates, which live inside them — and
resets the selection to the "all" pseudo-category iff the removed set
contained the previous selection. -/
theorem c4_delete_category (s : StoreState) (rank : String → Nat) (cid : String)
    (hwf : WellFormedForest s.library.categories rank)
    (hcache : s.cache = [])
    (hmem : cid ∈ s.library.categories.map (fun c => c.id))
    (hne : cid ≠ ALL_CATEGORY_ID) :
    (∀ (s0 : StoreState) (confirm0 : Bool),
        removeTemplateCategory s0 ALL_CATEGORY_ID confirm0 = s0)
      ∧ (removeTemplateCategory s cid true).library.categories
          = s.library.categories.filter
              (fun c => !(isInSubtree s.library.categories s.library.categories.length cid c.id))
      ∧ (removeTemplateCategory s cid true).library.selectedCategoryId
          = (if isInSubtree s.library.categories s.library.categories.length cid
                s.library.selectedCategoryId = true
             then ALL_CATEGORY_ID else s.library.selectedCategoryId) := by
  have hrefuse : ∀ (s0 : StoreState) (confirm0 : Bool),
      removeTemplateCategory s0 ALL_CATEGORY_ID confirm0 = s0 := by
    intro s0 confirm0
    rw [removeTemplateCategory]
    simp
  obtain ⟨hnd, hne2, hpne, hrk⟩ := hwf
  obtain ⟨cc, hccm, hccid⟩ := List.mem_map.mp hmem
  have hfcc : findCat s.library.categories cid = some cc := by
    rw [← hccid]
    exact findCat_of_mem_nodup hnd hccm
  have hexact : ExactCache s.library.categories s.cache := by
    rw [hcache]
    intro e he
    cases he
  have hcnt : countGE s.library.categories rank cid ≤ s.library.categories.length := by
    rw [countGE]
    exact List.length_filter_le _ _
  obtain ⟨hchar, _⟩ :=
    descGo_correct s.library.categories rank ⟨hnd, hne2, hpne, hrk⟩
      s.library.categories.length s.cache cid hexact hmem hcnt
  have hbeq : (cid == ALL_CATEGORY_ID) = false := by
    simpa using hne
  have hcontains : ∀ d : String,
      ((descGo s.library.categories s.library.categories.length s.cache cid).1.contains d)
        = isInSubtree s.library.categories s.library.categories.length cid d := by
    intro d
    have hmemiff := hchar d
    cases hsub : isInSubtree s.library.categories s.library.categories.length cid d with
    | true =>
      apply List.elem_eq_true_of_mem
      exact hmemiff.mpr hsub
    | false =>
      apply Bool.eq_false_iff.mpr
      intro hcon
      have : d ∈ (descGo s.library.categories s.library.categories.length s.cache cid).1 := by
        simpa using hcon
      rw [hmemiff, hsub] at this
      exact Bool.noConfusion this
  have hred : removeTemplateCategory s cid true =
      { library :=
          { categories := s.library.categories.filter
              (fun c =>
                !((descGo s.library.categories s.library.categories.length s.cache cid).1.contains
                  c.id)),
            selectedCategoryId :=
              if (descGo s.library.categories s.library.categories.length s.cache cid).1.contains
                  s.library.selectedCategoryId
              then ALL_CATEGORY_ID else s.library.selectedCategoryId },
        cache := [],
        nextGenId := s.nextGenId } := by
    rw [removeTemplateCategory]
    simp only [hbeq, Bool.false_eq_true, if_false, hfcc, Bool.not_true]
  refine ⟨hrefuse, ?_, ?_⟩
  · rw [hred]
    apply List.filter_congr
    intro c _
    rw [hcontains c.id]
  · rw [hred]
    simp only [hcontains s.library.selectedCategoryId]

/-- Witness for `c4_delete_category`: deleting category `a`, which owns a
template and has child `b` (the current selection), removes both categories
and resets the selection to the "all" pseudo-category. -/
theorem c4_delete_category_witness :
    (removeTemplateCategory
        { library :=
            { categories :=
                [{ id := "a", name := "A",
                   templates := [{ id := "t1", name := "T", latex := "x", note := "" }],
                   parentId := none },
                 { id := "b", name := "B", templates := [], parentId := some "a" }],
              selectedCategoryId := "b" },
          cache := [], nextGenId := 5 } "a" true).library.categories = []
      ∧ (removeTemplateCategory
          { library :=
              { categories :=
                  [{ id := "a", name := "A",
                     templates := [{ id := "t1", name := "T", latex := "x", note := "" }],
                     parentId := none },
                   { id := "b", name := "B", templates := [], parentId := some "a" }],
                selectedCategoryId := "b" },
            cache := [], nextGenId := 5 } "a" true).library.selectedCategoryId
          = ALL_CATEGORY_ID := by
  have h := c4_delete_category
    { library :=
        { categories :=
            [{ id := "a", name := "A",
               templates := [{ id := "t1", name := "T", latex := "x", note := "" }],
               parentId := none },
             { id := "b", name := "B", templates := [], parentId := some "a" }],
          selectedCategoryId := "b" },
      cache := [], nextGenId := 5 }
    (fun i => if i == "a" then 0 else 1) "a"
    ⟨by decide, by decide, by decide, by decide⟩ rfl (by decide) (by decide)
  exact ⟨h.2.1.trans (by decide), h.2.2.trans (by decide)⟩

/-- Along creation/read-only operation sequences every category keeps an
empty template list (`handleCreateTemplateCategory` appends `templates: []`
and reads touch only the cache). -/
theorem growOps_templates_empty (ops : List GrowOp) :
    ∀ s : StoreState, (∀ c ∈ s.library.categories, c.templates = []) →
      ∀ c ∈ (runOps s (ops.map GrowOp.toStoreOp)).library.categories, c.templates = [] := by
  induction ops with
  | nil =>
    intro s hs
    simpa [runOps] using hs
  | cons op rest ih =>
    intro s hs
    have hstep : ∀ c ∈ (applyOp s op.toStoreOp).library.categories, c.templates = [] := by
      cases op with
      | readDesc cid2 => simpa [GrowOp.toStoreOp, applyOp] using hs
      | create n cf =>
        intro c hc
        simp only [GrowOp.toStoreOp, applyOp, handleCreateTemplateCategory] at hc
        split at hc
        · exact hs c hc
        · split at hc
          · exact hs c hc
          · split at hc
            · split at hc
              · exact hs c hc
              · simp only [List.mem_append, List.mem_singleton] at hc
                rcases hc with hc | rfl
                · exact hs c hc
                · rfl
            · split at hc
              · exact hs c hc
              · simp only [List.mem_append, List.mem_singleton] at hc
                rcases hc with hc | rfl
                · exact hs c hc
                · rfl
    have hrest := ih (applyOp s op.toStoreOp) hstep
    simpa [runOps, List.map_cons, List.foldl_cons] using hrest

/-- With all template lists empty, the cache-driven count fold returns its
accumulator. -/
theorem foldl_count_zero (ids : List String) :
    ∀ cats : List TemplateCategory, (∀ c ∈ cats, c.templates = []) →
      ∀ a : Nat,
        cats.foldl
          (fun total c => if ids.contains c.id then total + c.templates.length else total) a
          = a := by
  intro cats
  induction cats with
  | nil => intro _ a; rfl
  | cons c t ih =>
    intro h a
    rw [List.foldl_cons]
    have hc : c.templates = [] := h c (List.mem_cons_self c t)
    have ht : ∀ x ∈ t, x.templates = [] := fun x hx => h x (List.mem_cons_of_mem c hx)
    simp only [hc, List.length_nil, Nat.add_zero, ite_self]
    exact ih ht a

/-- With all template lists empty, the spec-side subtree sum is zero. -/
theorem spec_sum_zero (cats : List TemplateCategory) (cid : String)
    (h : ∀ c ∈ cats, c.templates = []) : specSubtreeTemplateSum cats cid = 0 := by
  rw [specSubtreeTemplateSum]
  apply List.sum_eq_zero
  intro x hx
  obtain ⟨c, hc, rfl⟩ := List.mem_map.mp hx
  rw [h c (List.mem_of_mem_filter hc)]
  rfl

/-- C3: for every sequence of category-creation calls (each of which enforces
the depth limit itself) interleaved with descendant reads, the displayed
count `getCategoryTemplateCount(id)` equals the sum of `templates.length`
over exactly the subtree rooted at `id`. -/
theorem c3_subtree_template_count (ops : List GrowOp) (cid : String) :
    getCategoryTemplateCount (runOps initialStoreState (ops.map GrowOp.toStoreOp)) cid
      = specSubtreeTemplateSum
          (runOps initialStoreState (ops.map GrowOp.toStoreOp)).library.categories cid := by
  have hinv : ∀ c ∈ (runOps initialStoreState (ops.map GrowOp.toStoreOp)).library.categories,
      c.templates = [] := by
    apply growOps_templates_empty ops initialStoreState
    intro c hc
    simp [initialStoreState] at hc
  rw [getCategoryTemplateCount]
  rw [foldl_count_zero _ _ hinv 0]
  rw [spec_sum_zero _ _ hinv]

/-- Boolean `contains` on string lists agrees with membership. -/
theorem scontains_iff (l : List String) (a : String) : l.contains a = true ↔ a ∈ l := by
  constructor
  · intro h
    simpa using h
  · intro h
    exact List.elem_eq_true_of_mem h

/-- Membership after the insertion loop of `render`: an id is materialized
iff it was already present or belongs to the id slice `items[s : s+n]`. -/
theorem renderInsert_mem (items : List VItem) :
    ∀ (n s : Nat) (acc : List String) (x : String),
      x ∈ renderInsert items acc (List.range' s n) ↔
        x ∈ acc ∨ x ∈ ((items.drop s).take n).map (fun it => it.id) := by
  intro n
  induction n with
  | zero =>
    intro s acc x
    simp [renderInsert]
  | succ n ih =>
    intro s acc x
    rw [List.range'_succ]
    cases hs : items[s]? with
    | none =>
      have hlen : items.length ≤ s := List.getElem?_eq_none_iff.mp hs
      have h1 : renderInsert items acc (s :: List.range' (s + 1) n)
          = renderInsert items acc (List.range' (s + 1) n) := by
        simp only [renderInsert, List.foldl_cons, hs]
      rw [h1, ih (s + 1) acc x]
      rw [List.drop_eq_nil_of_le hlen, List.drop_eq_nil_of_le (Nat.le_succ_of_le hlen)]
      simp
    | some it =>
      have hlt : s < items.length := by
        cases Nat.lt_or_ge s items.length with
        | inl h => exact h
        | inr h => rw [List.getElem?_eq_none h] at hs; exact Option.noConfusion hs
      have hget : items[s] = it := by
        have := List.getElem?_eq_getElem hlt
        rw [hs] at this
        exact (Option.some.injEq _ _ ▸ this.symm : _)
      have hdropcons : items.drop s = it :: items.drop (s + 1) := by
        rw [List.drop_eq_getElem_cons hlt, hget]
      cases hcon : acc.contains it.id with
      | true =>
        have h1 : renderInsert items acc (s :: List.range' (s + 1) n)
            = renderInsert items acc (List.range' (s + 1) n) := by
          simp only [renderInsert, List.foldl_cons, hs, hcon, if_true]
        rw [h1, ih (s + 1) acc x, hdropcons]
        have hmem : it.id ∈ acc := (scontains_iff acc it.id).mp hcon
        simp only [List.take_succ_cons, List.map_cons, List.mem_cons]
        constructor
        · rintro (h | h)
          · exact Or.inl h
          · exact Or.inr (Or.inr h)
        · rintro (h | rfl | h)
          · exact Or.inl h
          · exact Or.inl hmem
          · exact Or.inr h
      | false =>
        have h1 : renderInsert items acc (s :: List.range' (s + 1) n)
            = renderInsert items (acc ++ [it.id]) (List.range' (s + 1) n) := by
          simp only [renderInsert, List.foldl_cons, hs, hcon, Bool.false_eq_true, if_false]
        rw [h1, ih (s + 1) (acc ++ [it.id]) x, hdropcons]
        simp only [List.take_succ_cons, List.map_cons, List.mem_cons, List.mem_append]
        constructor
        · rintro ((h | h) | h)
          · exact Or.inl h
          · rcases h with h | h
            · exact Or.inr (Or.inl h)
            · cases h
          · exact Or.inr (Or.inr h)
        · rintro (h | h | h)
          · exact Or.inl (Or.inl h)
          · exact Or.inl (Or.inr (Or.inl h))
          · exact Or.inr h

/-- The insertion loop preserves distinctness of the materialized keys. -/
theorem renderInsert_nodup (items : List VItem) :
    ∀ (idxs : List Nat) (acc : List String), acc.Nodup →
      (renderInsert items acc idxs).Nodup := by
  intro idxs
  induction idxs with
  | nil => intro acc h; exact h
  | cons i t ih =>
    intro acc h
    cases hi : items[i]? with
    | none =>
      have h1 : renderInsert items acc (i :: t) = renderInsert items acc t := by
        simp only [renderInsert, List.foldl_cons, hi]
      rw [h1]
      exact ih acc h
    | some it =>
      cases hcon : acc.contains it.id with
      | true =>
        have h1 : renderInsert items acc (i :: t) = renderInsert items acc t := by
          simp only [renderInsert, List.foldl_cons, hi, hcon, if_true]
        rw [h1]
        exact ih acc h
      | false =>
        have h1 : renderInsert items acc (i :: t)
            = renderInsert items (acc ++ [it.id]) t := by
          simp only [renderInsert, List.foldl_cons, hi, hcon, Bool.false_eq_true, if_false]
        rw [h1]
        apply ih
        apply List.Nodup.append h (List.nodup_singleton it.id)
        intro y hy hy2
        rw [List.mem_singleton] at hy2
        subst hy2
        have : acc.contains it.id = true := (scontains_iff acc it.id).mpr hy
        rw [hcon] at this
        exact Bool.noConfusion this

/-- C2: the virtual list computes `visibleStart`/`visibleEnd` by the claimed
formulas, a render pass materializes exactly the ids of
`items[visibleStart : visibleEnd]`, and the number of materialized handles is
bounded by `ceil(viewportHeight/itemHeight) + 2*bufferSize` regardless of the
total item count. -/
theorem c2_virtual_list (items : List VItem)
    (scrollTop viewportHeight itemHeight bufferSize : Nat) (rendered0 : List String)
    (hpos : 0 < itemHeight) (hnd : rendered0.Nodup) :
    (updateVisibleRange items.length scrollTop viewportHeight itemHeight bufferSize).1
        = max 0 (scrollTop / itemHeight - bufferSize)
      ∧ (updateVisibleRange items.length scrollTop viewportHeight itemHeight bufferSize).2
          = min items.length
              (scrollTop / itemHeight + ceilDiv viewportHeight itemHeight + bufferSize)
      ∧ (∀ x, x ∈ renderPass items rendered0
            (updateVisibleRange items.length scrollTop viewportHeight itemHeight bufferSize).1
            (updateVisibleRange items.length scrollTop viewportHeight itemHeight bufferSize).2
          ↔ x ∈ ((items.drop
                (updateVisibleRange items.length scrollTop viewportHeight itemHeight
                  bufferSize).1).take
                ((updateVisibleRange items.length scrollTop viewportHeight itemHeight
                    bufferSize).2
                  - (updateVisibleRange items.length scrollTop viewportHeight itemHeight
                      bufferSize).1)).map (fun it => it.id))
      ∧ (renderPass items rendered0
            (updateVisibleRange items.length scrollTop viewportHeight itemHeight bufferSize).1
            (updateVisibleRange items.length scrollTop viewportHeight itemHeight
              bufferSize).2).length
          ≤ ceilDiv viewportHeight itemHeight + 2 * bufferSize := by
  have hs1 : (updateVisibleRange items.length scrollTop viewportHeight itemHeight bufferSize).1
      = scrollTop / itemHeight - bufferSize := by
    rw [updateVisibleRange]
    exact Nat.zero_max _
  have hs2 : (updateVisibleRange items.length scrollTop viewportHeight itemHeight bufferSize).2
      = min items.length
          (scrollTop / itemHeight + ceilDiv viewportHeight itemHeight + bufferSize) := rfl
  have hmem : ∀ s e x, x ∈ renderPass items rendered0 s e
      ↔ x ∈ ((items.drop s).take (e - s)).map (fun it => it.id) := by
    intro s e x
    rw [renderPass, renderInsert_mem items (e - s) s _ x]
    constructor
    · rintro (h | h)
      · rw [renderRemove, List.mem_filter] at h
        exact (scontains_iff _ _).mp h.2
      · exact h
    · intro h
      exact Or.inr h
  refine ⟨by rw [hs1]; exact (Nat.zero_max _).symm, hs2, fun x => hmem _ _ x, ?_⟩
  have hnodup : (renderPass items rendered0
      (updateVisibleRange items.length scrollTop viewportHeight itemHeight bufferSize).1
      (updateVisibleRange items.length scrollTop viewportHeight itemHeight
        bufferSize).2).Nodup := by
    rw [renderPass]
    apply renderInsert_nodup
    exact List.Nodup.filter _ hnd
  have hsub : renderPass items rendered0
      (updateVisibleRange items.length scrollTop viewportHeight itemHeight bufferSize).1
      (updateVisibleRange items.length scrollTop viewportHeight itemHeight bufferSize).2
      ⊆ ((items.drop
          (updateVisibleRange items.length scrollTop viewportHeight itemHeight
            bufferSize).1).take
          ((updateVisibleRange items.length scrollTop viewportHeight itemHeight bufferSize).2
            - (updateVisibleRange items.length scrollTop viewportHeight itemHeight
                bufferSize).1)).map (fun it => it.id) := by
    intro x hx
    exact (hmem _ _ x).mp hx
  have hlen := List.Subperm.length_le (List.subperm_of_subset hnodup hsub)
  have hslice : (((items.drop
      (updateVisibleRange items.length scrollTop viewportHeight itemHeight
        bufferSize).1).take
      ((updateVisibleRange items.length scrollTop viewportHeight itemHeight bufferSize).2
        - (updateVisibleRange items.length scrollTop viewportHeight itemHeight
            bufferSize).1)).map (fun it => it.id)).length
      ≤ (updateVisibleRange items.length scrollTop viewportHeight itemHeight bufferSize).2
        - (updateVisibleRange items.length scrollTop viewportHeight itemHeight
            bufferSize).1 := by
    rw [List.length_map]
    exact List.length_take_le _ _
  have hrange : (updateVisibleRange items.length scrollTop viewportHeight itemHeight
        bufferSize).2
      - (updateVisibleRange items.length scrollTop viewportHeight itemHeight bufferSize).1
      ≤ ceilDiv viewportHeight itemHeight + 2 * bufferSize := by
    rw [hs1, hs2]
    have h2 : min items.length
        (scrollTop / itemHeight + ceilDiv viewportHeight itemHeight + bufferSize)
        ≤ scrollTop / itemHeight + ceilDiv viewportHeight itemHeight + bufferSize :=
      Nat.min_le_right _ _
    omega
  omega

/-- Witness for `c2_virtual_list`: four items of height 10, a 15-pixel
viewport scrolled to 12 with buffer 1, and a prior handle map holding one
still-visible id and one stale id. -/
theorem c2_virtual_list_witness :
    (0 : Nat) < 10
      ∧ (["i0", "zombie"] : List String).Nodup
      ∧ (renderPass [{ id := "i0" }, { id := "i1" }, { id := "i2" }, { id := "i3" }]
            ["i0", "zombie"]
            (updateVisibleRange 4 12 15 10 1).1
            (updateVisibleRange 4 12 15 10 1).2).length
          ≤ ceilDiv 15 10 + 2 * 1 := by
  refine ⟨by decide, by decide, ?_⟩
  have h := c2_virtual_list [{ id := "i0" }, { id := "i1" }, { id := "i2" }, { id := "i3" }]
    12 15 10 1 ["i0", "zombie"] (by decide) (by decide)
  exact h.2.2.2

/-- Looking up the replaced id after `updateFirstCat` yields the transformed
first match, provided the transformation preserves the id. -/
theorem findCat_updateFirstCat (cid : String) (f : TemplateCategory → TemplateCategory)
    (hid : ∀ c, (f c).id = c.id) :
    ∀ cats : List TemplateCategory,
      findCat (updateFirstCat cats cid f) cid = (findCat cats cid).map f := by
  intro cats
  induction cats with
  | nil => rfl
  | cons c t ih =>
    by_cases hc : (c.id == cid) = true
    · rw [updateFirstCat, if_pos hc]
      simp [findCat, List.find?_cons, hid c, hc]
    · rw [updateFirstCat, if_neg hc]
      rw [Bool.not_eq_true] at hc
      simp only [findCat, List.find?_cons, hc]
      exact ih

/-- The helper `updateFirstCat` preserves the per-category template counts whenever the
transformation does. -/
theorem updateFirstCat_counts (cid : String) (f : TemplateCategory → TemplateCategory)
    (hlen : ∀ c, (f c).templates.length = c.templates.length) :
    ∀ cats : List TemplateCategory,
      (updateFirstCat cats cid f).map (fun c => c.templates.length)
        = cats.map (fun c => c.templates.length) := by
  intro cats
  induction cats with
  | nil => rfl
  | cons c t ih =>
    by_cases hc : (c.id == cid) = true
    · rw [updateFirstCat, if_pos hc, List.map_cons, List.map_cons, hlen c]
    · rw [updateFirstCat, if_neg hc, List.map_cons, List.map_cons, ih]

/-- C5: saving a template whose name already exists in the selected category
is a no-op without overwrite confirmation (the library is identical); with
confirmation the matching entry is replaced in place keeping its id, and no
category's template count changes. -/
theorem c5_save_duplicate_name (lib : TemplateLibrary) (cat : TemplateCategory)
    (nameRaw latex noteRaw genId : String) (existing : TemplateItem)
    (hsel : getSelectedTemplateCategory lib = some cat)
    (hex : cat.templates.find? (fun tpl => tpl.name == jsTrim nameRaw) = some existing)
    (hname : jsTrim nameRaw ≠ "") (hlatex : latex ≠ "") :
    saveTemplateEntry lib nameRaw latex noteRaw false genId = lib
      ∧ (findCat (saveTemplateEntry lib nameRaw latex noteRaw true genId).categories
            cat.id).map (fun c => c.templates)
          = some (cat.templates.map (fun tpl =>
              if tpl.id == existing.id
              then { id := existing.id, name := jsTrim nameRaw, latex := latex,
                     note := jsTrim noteRaw }
              else tpl))
      ∧ (saveTemplateEntry lib nameRaw latex noteRaw true genId).categories.map
            (fun c => c.templates.length)
          = lib.categories.map (fun c => c.templates.length) := by
  have hnameb : (jsTrim nameRaw == "") = false := by simpa using hname
  have hlatexb : (latex == "") = false := by simpa using hlatex
  have hfcat : findCat lib.categories cat.id = some cat := by
    rw [getSelectedTemplateCategory] at hsel
    by_cases hall : (lib.selectedCategoryId == ALL_CATEGORY_ID) = true
    · rw [if_pos hall] at hsel
      exact Option.noConfusion hsel
    · rw [if_neg hall] at hsel
      obtain ⟨_, hcid⟩ := findCat_mem hsel
      rw [hcid]
      exact hsel
  have hnoop : saveTemplateEntry lib nameRaw latex noteRaw false genId = lib := by
    rw [saveTemplateEntry, hsel]
    simp only [hnameb, Bool.false_eq_true, if_false, hlatexb, hex, Bool.not_false, if_true]
  have hover : saveTemplateEntry lib nameRaw latex noteRaw true genId =
      { lib with
        categories := updateFirstCat lib.categories cat.id
          (fun c =>
            { c with templates :=
                c.templates.map (fun tpl =>
                  if tpl.id == existing.id
                  then { id := existing.id, name := jsTrim nameRaw, latex := latex,
                         note := jsTrim noteRaw }
                  else tpl) }) } := by
    rw [saveTemplateEntry, hsel]
    simp only [hnameb, Bool.false_eq_true, if_false, hlatexb, hex, Bool.not_true]
  refine ⟨hnoop, ?_, ?_⟩
  · rw [hover]
    rw [findCat_updateFirstCat cat.id
      (fun c =>
        { c with templates :=
            c.templates.map (fun tpl =>
              if tpl.id == existing.id
              then { id := existing.id, name := jsTrim nameRaw, latex := latex,
                     note := jsTrim noteRaw }
              else tpl) })
      (fun c => rfl) lib.categories]
    rw [hfcat]
    rfl
  · rw [hover]
    exact updateFirstCat_counts cat.id
      (fun c =>
        { c with templates :=
            c.templates.map (fun tpl =>
              if tpl.id == existing.id
              then { id := existing.id, name := jsTrim nameRaw, latex := latex,
                     note := jsTrim noteRaw }
              else tpl) })
      (fun c => by simp) lib.categories

/-- Witness for `c5_save_duplicate_name`: category `c1` with a template named
`Identity`; saving another `Identity` without confirmation leaves the library
unchanged, and overwriting keeps the id `t1` and the count. -/
theorem c5_save_duplicate_name_witness :
    saveTemplateEntry
        { categories :=
            [{ id := "c1", name := "A",
               templates := [{ id := "t1", name := "Identity", latex := "x", note := "old" }],
               parentId := none }],
          selectedCategoryId := "c1" } "Identity" "y" "new" false "t9"
      = { categories :=
            [{ id := "c1", name := "A",
               templates := [{ id := "t1", name := "Identity", latex := "x", note := "old" }],
               parentId := none }],
          selectedCategoryId := "c1" }
      ∧ (saveTemplateEntry
          { categories :=
              [{ id := "c1", name := "A",
                 templates := [{ id := "t1", name := "Identity", latex := "x", note := "old" }],
                 parentId := none }],
            selectedCategoryId := "c1" } "Identity" "y" "new" true "t9").categories.map
          (fun c => c.templates.length) = [1] := by
  have h := c5_save_duplicate_name
    { categories :=
        [{ id := "c1", name := "A",
           templates := [{ id := "t1", name := "Identity", latex := "x", note := "old" }],
           parentId := none }],
      selectedCategoryId := "c1" }
    { id := "c1", name := "A",
      templates := [{ id := "t1", name := "Identity", latex := "x", note := "old" }],
      parentId := none }
    "Identity" "y" "new" "t9"
    { id := "t1", name := "Identity", latex := "x", note := "old" }
    (by decide) (by decide) (by decide) (by decide)
  exact ⟨h.1, h.2.2.trans (by decide)⟩

/-- In the unbound state with both timers stopped, no sequence of mutation
and timer events attempts a write. -/
theorem autosave_unbound_no_writes :
    ∀ (events : List AutosaveEvent) (s : AutosaveState),
      hasBoundFile s = false → s.intervalArmed = false → s.debounceArmed = false →
      (autosaveRun s events).2 = 0 := by
  intro events
  induction events with
  | nil => intro s _ _ _; rfl
  | cons e rest ih =>
    intro s hb hi hd
    cases e with
    | mutate => simp [autosaveRun, autosaveStep, scheduleAutosave, hb, ih s hb hi hd]
    | debounceFire o now => simp [autosaveRun, autosaveStep, hd, ih s hb hi hd]
    | intervalTick o now => simp [autosaveRun, autosaveStep, hi, ih s hb hi hd]

/-- C7: a failed write of a bound autosave target unbinds the binding (file
handle, path and name cleared), surfaces an error status message, stops both
the debounce and the interval timer, and no further write attempts occur for
any subsequent mutation/timer events (rebinding is the only way out). -/
theorem c7_autosave_write_failure (s : AutosaveState) (msg now : String)
    (hbound : hasBoundFile s = true) :
    (saveToBoundFile s (WriteOutcome.fail msg) now).1.boundFileHandle = false
      ∧ (saveToBoundFile s (WriteOutcome.fail msg) now).1.boundFilePath = ""
      ∧ (saveToBoundFile s (WriteOutcome.fail msg) now).1.boundFileName = ""
      ∧ (saveToBoundFile s (WriteOutcome.fail msg) now).1.boundFileHandleType
          = BoundFileHandleType.none
      ∧ (saveToBoundFile s (WriteOutcome.fail msg) now).1.statusText
          = "自动保存失败：" ++ msg
      ∧ (saveToBoundFile s (WriteOutcome.fail msg) now).1.statusVariant = "error"
      ∧ (saveToBoundFile s (WriteOutcome.fail msg) now).1.intervalArmed = false
      ∧ (saveToBoundFile s (WriteOutcome.fail msg) now).1.debounceArmed = false
      ∧ ∀ events : List AutosaveEvent,
          (autosaveRun (saveToBoundFile s (WriteOutcome.fail msg) now).1 events).2 = 0 := by
  have hred : (saveToBoundFile s (WriteOutcome.fail msg) now).1
      = unbindAutosaveFile s (some ("自动保存失败：" ++ msg)) none := by
    simp only [saveToBoundFile, hbound, Bool.true_eq_false, if_false]
  simp only [hred]
  exact ⟨rfl, rfl, rfl, rfl, rfl, rfl, rfl, rfl,
    fun events => autosave_unbound_no_writes events _ rfl rfl rfl⟩

/-- Witness for `c7_autosave_write_failure`: a bound FileSystemAccess state
suffers a permission failure; afterwards a mutation and both timer callbacks
attempt no write. -/
theorem c7_autosave_write_failure_witness :
    hasBoundFile
        { boundFileHandle := true, boundFileName := "notes.json",
          boundFileHandleType := BoundFileHandleType.fsa, boundFilePath := "",
          lastAutosaveSet := true, statusText := "", statusVariant := "normal",
          intervalArmed := true, debounceArmed := true } = true
      ∧ (autosaveRun
          (saveToBoundFile
            { boundFileHandle := true, boundFileName := "notes.json",
              boundFileHandleType := BoundFileHandleType.fsa, boundFilePath := "",
              lastAutosaveSet := true, statusText := "", statusVariant := "normal",
              intervalArmed := true, debounceArmed := true }
            (WriteOutcome.fail "permission denied") "12:00").1
          [AutosaveEvent.mutate,
            AutosaveEvent.intervalTick WriteOutcome.ok "12:01",
            AutosaveEvent.debounceFire WriteOutcome.ok "12:02"]).2 = 0 := by
  refine ⟨by decide, ?_⟩
  exact (c7_autosave_write_failure
    { boundFileHandle := true, boundFileName := "notes.json",
      boundFileHandleType := BoundFileHandleType.fsa, boundFilePath := "",
      lastAutosaveSet := true, statusText := "", statusVariant := "normal",
      intervalArmed := true, debounceArmed := true }
    "permission denied" "12:00" (by decide)).2.2.2.2.2.2.2.2
    [AutosaveEvent.mutate,
      AutosaveEvent.intervalTick WriteOutcome.ok "12:01",
      AutosaveEvent.debounceFire WriteOutcome.ok "12:02"]

/-- A query equal to the owning category's name (here `trig` against category
`Trig`) returns a template none of whose own name/note/latex fields contain
the query: the code's search haystack also joins in `category.name`, one more
point where the search deviates from the spec's field list. -/
theorem haystack_includes_category_name :
    (renderTemplateListModel
        { categories :=
            [{ id := "c1", name := "Trig",
               templates := [{ id := "t1", name := "t1", latex := "x", note := "" }],
               parentId := none }],
          selectedCategoryId := "__all__" } "trig" allTemplatesMemoInit).1
      = [({ id := "t1", name := "t1", latex := "x", note := "" },
          { id := "c1", name := "Trig",
            templates := [{ id := "t1", name := "t1", latex := "x", note := "" }],
            parentId := none })]
      ∧ claimFieldMatch "trig" { id := "t1", name := "t1", latex := "x", note := "" }
          = false := by
  decide

/-- With the memo in its initial (cold) state the pipeline is exact: the
search returns precisely the in-scope pairs whose haystack matches the
lowercased trimmed query.  It is only a warm memo that can make the all-scope
search deviate from the current library. -/
theorem renderTemplateList_cold_exact (lib : TemplateLibrary) (searchTermRaw : String)
    (e : TemplateItem × TemplateCategory) :
    e ∈ (renderTemplateListModel lib searchTermRaw allTemplatesMemoInit).1
      ↔ e ∈ (scopedTemplates lib allTemplatesMemoInit).1
          ∧ templateHaystackMatch (jsToLower (jsTrim searchTermRaw)) e = true := by
  rw [renderTemplateListModel]
  by_cases h0 : (lib.categories.length == 0) = true
  · rw [if_pos h0]
    have hcats : lib.categories = [] := List.length_eq_zero.mp (by simpa using h0)
    have hallb : (getAllTemplates lib allTemplatesMemoInit).1 = [] := by
      simp [getAllTemplates, allTemplatesMemoInit, computeAllTemplates, hcats]
    have hselb : getSelectedTemplateCategory lib = none := by
      rw [getSelectedTemplateCategory]
      by_cases hall2 : (lib.selectedCategoryId == ALL_CATEGORY_ID) = true
      · rw [if_pos hall2]
      · rw [if_neg hall2, hcats]
        rfl
    have hscope : (scopedTemplates lib allTemplatesMemoInit).1 = [] := by
      simp only [scopedTemplates, hselb]
      split
      · exact hallb
      · split
        · exact hallb
        · rfl
    rw [hscope]
    simp
  · rw [if_neg h0]
    by_cases h1 : ((scopedTemplates lib allTemplatesMemoInit).1.length == 0) = true
    · rw [if_pos h1]
      have hscope : (scopedTemplates lib allTemplatesMemoInit).1 = [] :=
        List.length_eq_zero.mp (by simpa using h1)
      rw [hscope]
      simp
    · rw [if_neg h1]
      exact List.mem_filter

/-- C8: the claim that the search returns exactly the in-scope templates whose
fields match FAILS on the code: `getAllTemplates` memoizes its result keyed
only on the number of categories, and saving a template leaves that number
unchanged, while nothing else ever invalidates the memo.  Concretely: render
the all-scope list of a one-category library once (priming the memo), save a
new template `Euler` into the category, select the all scope and search
`Euler` — the program returns no rows, although the live library holds
exactly one in-scope template whose own name contains the query, and the same
search against the same library with a cold memo returns exactly that row. -/
theorem c8_stale_search_after_save :
    (renderTemplateListModel memoLib1 "Euler" memoPrimed).1 = []
      ∧ ((computeAllTemplates memoLib1).filter
          (fun e => claimFieldMatch "Euler" e.1)).length = 1
      ∧ (renderTemplateListModel memoLib1 "Euler" allTemplatesMemoInit).1
          = (computeAllTemplates memoLib1).filter (fun e => claimFieldMatch "Euler" e.1) := by
  decide

/-- A key appended last is the one JS property access reads. -/
theorem getField_append_last (rest : List (String × Json)) (k : String) (v : Json) :
    getField (rest ++ [(k, v)]) k = some v := by
  rw [getField, List.reverse_append]
  simp [List.find?]

/-- The sanitizer keeps an entry iff it has a valid latex field. -/
theorem sanitizeFormulaEntry_isSome (item : Json) (idx ctr : Nat) :
    (sanitizeFormulaEntry item idx ctr).1.isSome = entryHasValidLatex item := by
  cases item with
  | null => rfl
  | bool b => rfl
  | num n => rfl
  | str s => rfl
  | arr l => rfl
  | obj fields =>
    rw [sanitizeFormulaEntry, entryHasValidLatex]
    cases hf : getField fields "latex" with
    | none => rfl
    | some v =>
      cases v with
      | null => rfl
      | bool b => rfl
      | num n => rfl
      | arr l => rfl
      | obj fs => rfl
      | str l =>
        by_cases hl : (jsTrim l == "") = true
        · simp [hl]
        · simp [hl]

/-- The sanitizing fold keeps exactly the entries with valid latex. -/
theorem sanitizeFold_length :
    ∀ (items : List Json) (i : Nat) (acc : List FormulaItem) (ctr : Nat),
      ((items.enumFrom i).foldl
          (fun st p =>
            let r := sanitizeFormulaEntry p.2 p.1 st.2
            match r.1 with
            | some f => (st.1 ++ [f], r.2)
            | none => (st.1, r.2))
          (acc, ctr)).1.length
        = acc.length + (items.filter entryHasValidLatex).length := by
  intro items
  induction items with
  | nil =>
    intro i acc ctr
    simp [List.enumFrom]
  | cons x xs ih =>
    intro i acc ctr
    rw [List.enumFrom, List.foldl_cons]
    cases hv : (sanitizeFormulaEntry x i ctr).1 with
    | some f =>
      have hvalid : entryHasValidLatex x = true := by
        rw [← sanitizeFormulaEntry_isSome x i ctr, hv]
        rfl
      rw [List.filter_cons_of_pos hvalid]
      have hrec := ih (i + 1) (acc ++ [f]) (sanitizeFormulaEntry x i ctr).2
      simp only [hv] at hrec ⊢
      rw [hrec]
      simp only [List.length_append, List.length_cons, List.length_nil]
      omega
    | none =>
      have hvalid : entryHasValidLatex x = false := by
        rw [← sanitizeFormulaEntry_isSome x i ctr, hv]
        rfl
      rw [List.filter_cons_of_neg (by simp [hvalid])]
      have hrec := ih (i + 1) acc (sanitizeFormulaEntry x i ctr).2
      simp only [hv] at hrec ⊢
      rw [hrec]

/-- The FORMULA importer `importJsonText` does implement the abort contract:
a parse failure or a wrong top-level shape aborts the import entirely, leaves
the in-memory collection unchanged and reports a message that distinguishes a
template-library file (truthy `categories` key) from malformed JSON; and an
array imports successfully, dropping exactly the entries that fail latex
validation while keeping the rest. -/
theorem importJsonText_error_handling (s0 : List FormulaItem) (n0 : Int) (ctr : Nat) :
    (importJsonText s0 n0 none ctr
        = { ok := false, formulas := s0, nextIndex := n0,
            message := some "导入失败：文件内容不是有效的 JSON 格式" })
      ∧ (∀ (rest : List (String × Json)) (v : Json),
          importJsonText s0 n0 (some (Json.obj (rest ++ [("categories", v)]))) ctr
            = { ok := false, formulas := s0, nextIndex := n0,
                message := some (if jsonTruthy v
                  then "导入失败：这是模板库文件，请使用“绑定模板”功能导入"
                  else "导入失败：文件格式错误：公式集必须是 JSON 数组") })
      ∧ (∀ q : String,
          importJsonText s0 n0 (some (Json.str q)) ctr
            = { ok := false, formulas := s0, nextIndex := n0,
                message := some "导入失败：文件格式错误：公式集必须是 JSON 数组" })
      ∧ (∀ items : List Json,
          (importJsonText s0 n0 (some (Json.arr items)) ctr).ok = true
            ∧ (importJsonText s0 n0 (some (Json.arr items)) ctr).formulas.length
                = (items.filter entryHasValidLatex).length)
      ∧ ("导入失败：这是模板库文件，请使用“绑定模板”功能导入" : String)
          ≠ "导入失败：文件内容不是有效的 JSON 格式" := by
  refine ⟨rfl, ?_, fun q => rfl, ?_, by decide⟩
  · intro rest v
    rw [importJsonText, getField_append_last]
    by_cases hv : jsonTruthy v = true
    · simp only [hv, if_true]
    · rw [Bool.not_eq_true] at hv
      simp only [hv, Bool.false_eq_true, if_false]
  · intro items
    refine ⟨rfl, ?_⟩
    have h := sanitizeFold_length items 0 [] ctr
    simp only [importJsonText, applyImportedFormulas, sanitizeFormulas]
    rw [show items.enum = items.enumFrom 0 from rfl]
    simpa using h

/-- C9: the claim FAILS on the code for the template importer it cites.  On a
successfully parsed top-level value of a fundamentally wrong shape (an empty
JSON object, a string, ... — anything that is neither an array nor an object
with an array `categories` field), `importTemplateText` does not abort:
normalization of the non-array value yields the empty list, which then
unconditionally replaces the template library — here wiping a populated
library — the selection resets, the call returns `true`, and the surfaced
status `模板文件为空` is the very text a valid-but-empty library import
produces, distinguishing nothing. -/
theorem c9_template_import_wrong_shape :
    ((importTemplateText tplLib0 (some TemplateImport.other) "").ok = true
        ∧ (importTemplateText tplLib0 (some TemplateImport.other) "").library.categories = []
        ∧ tplLib0.categories ≠ []
        ∧ (importTemplateText tplLib0 (some TemplateImport.other) "").library ≠ tplLib0)
      ∧ (importTemplateText tplLib0 (some TemplateImport.other) "").message = "模板文件为空"
      ∧ (importTemplateText tplLib0 (some (TemplateImport.arr [])) "").message
          = "模板文件为空" := by
  decide

/-- Sanitizing an entry the exporter produced gives the entry back unchanged
(when its latex is trimmed and non-empty and its note is trimmed, as every
in-memory formula's is). -/
theorem sanitizeFormulaEntry_export (f : FormulaItem) (i ctr : Nat)
    (h1 : jsTrim f.latex = f.latex) (h2 : f.latex ≠ "") (h3 : jsTrim f.note = f.note) :
    sanitizeFormulaEntry (formulaToJson f) i ctr = (some f, ctr) := by
  have hred : sanitizeFormulaEntry (formulaToJson f) i ctr
      = (if jsTrim f.latex == "" then (none, ctr)
         else (some { id := f.id, index := f.index, latex := jsTrim f.latex,
                      note := jsTrim f.note }, ctr)) := rfl
  rw [hred, h1, h3]
  have hb : (f.latex == "") = false := by simpa using h2
  rw [hb]
  simp

/-- The sanitizing fold maps an exported collection back to itself. -/
theorem sanitizeFold_export :
    ∀ fs : List FormulaItem,
      (∀ f ∈ fs, jsTrim f.latex = f.latex ∧ f.latex ≠ "" ∧ jsTrim f.note = f.note) →
      ∀ (i : Nat) (acc : List FormulaItem) (ctr : Nat),
        ((fs.map formulaToJson).enumFrom i).foldl
            (fun st p =>
              let r := sanitizeFormulaEntry p.2 p.1 st.2
              match r.1 with
              | some f => (st.1 ++ [f], r.2)
              | none => (st.1, r.2))
            (acc, ctr)
          = (acc ++ fs, ctr) := by
  intro fs
  induction fs with
  | nil =>
    intro _ i acc ctr
    simp [List.enumFrom]
  | cons f t ih =>
    intro h i acc ctr
    obtain ⟨h1, h2, h3⟩ := h f (List.mem_cons_self f t)
    have ht : ∀ x ∈ t, jsTrim x.latex = x.latex ∧ x.latex ≠ "" ∧ jsTrim x.note = x.note :=
      fun x hx => h x (List.mem_cons_of_mem f hx)
    rw [List.map_cons, List.enumFrom, List.foldl_cons]
    simp only [sanitizeFormulaEntry_export f i ctr h1 h2 h3]
    rw [ih ht (i + 1) (acc ++ [f]) ctr]
    simp

/-- C10: exporting the formula collection to JSON and re-importing it yields
an equal (id, index, latex, note) sequence.  (Exported entries always carry
ids, so the "modulo regenerated ids" escape clause of the claim is not even
needed; the hypotheses state that the in-memory entries are sanitized —
trimmed non-empty latex, trimmed note — which every creation and import path
establishes.) -/
theorem c10_export_import_roundtrip (fs s0 : List FormulaItem) (n0 : Int) (ctr : Nat)
    (hs : ∀ f ∈ fs, jsTrim f.latex = f.latex ∧ f.latex ≠ "" ∧ jsTrim f.note = f.note) :
    (importJsonText s0 n0 (some (exportJson fs)) ctr).ok = true
      ∧ (importJsonText s0 n0 (some (exportJson fs)) ctr).formulas = fs := by
  have hfold := sanitizeFold_export fs hs 0 [] ctr
  constructor
  · rfl
  · show (applyImportedFormulas (sanitizeFormulas (fs.map formulaToJson) ctr).1).formulas = fs
    rw [sanitizeFormulas]
    rw [show (fs.map formulaToJson).enum = (fs.map formulaToJson).enumFrom 0 from rfl]
    rw [hfold]
    rw [show (([] ++ fs, ctr) : List FormulaItem × Nat).1 = fs from by simp]
    rfl

/-- Witness for `c10_export_import_roundtrip` on a two-formula collection. -/
theorem c10_export_import_roundtrip_witness :
    (importJsonText [] 1
        (some (exportJson
          [{ id := "f1", index := 2, latex := "x+y", note := "sum" },
           { id := "f2", index := 5, latex := "e^x", note := "" }])) 0).formulas
      = [{ id := "f1", index := 2, latex := "x+y", note := "sum" },
         { id := "f2", index := 5, latex := "e^x", note := "" }] := by
  exact (c10_export_import_roundtrip
    [{ id := "f1", index := 2, latex := "x+y", note := "sum" },
     { id := "f2", index := 5, latex := "e^x", note := "" }]
    [] 1 0 (by decide)).2

/-- Normalizing one level of the chain consumes one unit of fuel: it emits
the level's category (with synthesized id and name, the valid template kept
and the latex-less one dropped) and recurses into the nested children. -/
theorem chain_step (f m : Nat) (parent : Option String) (acc : List TemplateCategory)
    (ctr : Nat) :
    normalizeAux (f + 1) (chainRaw (m + 1)) parent acc ctr
      = normalizeAux f (chainRaw m) (some (generateId "category" (ctr + 1)))
          (acc ++ [{ id := generateId "category" (ctr + 1), name := "分类 1",
                     templates := [{ id := generateId "template" ctr, name := "模板 1",
                                     latex := "x", note := "" }],
                     parentId := parent }]) (ctr + 2) := by
  rw [chainRaw]
  simp +decide [normalizeAux, normalizeRawTemplates, RawCat.rawName, RawCat.rawTemplates,
    RawCat.rawId, RawCat.rawParentId, RawCat.rawCategories, RawCat.rawChildren,
    List.enum, List.enumFrom, jsTrim, generateId]
  rw [show ("分类 " ++ toString 1 : String) = "分类 1" from rfl,
    show ("模板 " ++ toString 1 : String) = "模板 1" from rfl,
    show ctr + 1 + 1 = ctr + 2 from rfl]

/-- With fuel `f`, normalization cannot see beyond the first `f` levels of
the chain: any deeper tail is silently dropped. -/
theorem chain_trunc :
    ∀ (f m : Nat) (parent : Option String) (acc : List TemplateCategory) (ctr : Nat),
      normalizeAux f (chainRaw (m + f)) parent acc ctr
        = normalizeAux f (chainRaw f) parent acc ctr := by
  intro f
  induction f with
  | zero => intro m parent acc ctr; rfl
  | succ f ih =>
    intro m parent acc ctr
    have h1 := chain_step f (m + f) parent acc ctr
    have h2 := chain_step f f parent acc ctr
    rw [show m + (f + 1) = (m + f) + 1 from rfl] at *
    rw [h1, h2]
    exact ih m _ _ _

/-- C6: normalizing an imported template tree bounds the recursion at depth
6.  For the chain family nested `n + 7` levels deep, every level up to 6
appears in the flattened output with its parent pointer, synthesized
id/name, and the template lacking non-empty latex dropped, while every
deeper node is silently dropped (the result is the same for every depth at
least 7, and no error is possible — the function is total). -/
theorem c6_normalize_depth_bound (n : Nat) :
    (normalizeTemplateCategories (some (chainRaw (n + 7)))).1 = chainExpected
      ∧ chainExpected.length = 6 := by
  constructor
  · show (normalizeAux 6 (chainRaw (n + 7)) none [] 0).1 = chainExpected
    have h := chain_trunc 6 (n + 1) none [] 0
    rw [show n + 7 = (n + 1) + 6 from rfl, h]
    decide
  · decide

end FormulaEditor
